import Mathlib

/-!
Verification of the local cache/sync subsystem of the google-workspace skill
(`scripts/cache.py`): a shallow embedding of the SQLite mirror store, the
per-source sync-state store, the five source adapters (gmail, calendar,
contacts, drive, photos), the full-text search facade and the `sync` command
loop, together with theorems about the spec-level properties of that code.

Upstream Google APIs are modelled as oracles (functions from requests to
responses that may raise), while-loops over pages are modelled with fuel
(a result of `none` means the computation did not finish within any given
fuel bound), and the SQLite database is modelled as association lists keyed
by primary key.  Machine-level details (timestamps, JSON rendering) are kept
as opaque strings, exactly as the code stores them.
-/

set_option maxHeartbeats 1000000

namespace Cache

/-- A mirror-table row payload: named columns holding text values
(the code stores every cached field as a SQLite text/int cell; we render
ints and bools to strings with fixed injective encodings). -/
abbrev Rec := List (String × String)

/-- A mirror table: rows keyed by the source-assigned primary key
(`message_id`, `event_id`, `resource_name`, `file_id`, `item_id`). -/
abbrev Tbl := List (String × Rec)

/-- Does the keyed list contain a row with primary key `k`? -/
def hasKey {α : Type} (t : List (String × α)) (k : String) : Bool :=
  t.any (fun r => r.1 == k)

/-- Replace the value of every row whose key is `k` (the UPDATE half of
sqlite-utils `upsert`; with unique keys there is exactly one such row). -/
def updAll {α : Type} (t : List (String × α)) (k : String) (v : α) : List (String × α) :=
  t.map (fun r => if r.1 == k then (k, v) else r)

/-- sqlite-utils `upsert`: update the row with primary key `k` in place if it
exists, otherwise insert a new row at the end. -/
def upsertOne {α : Type} (t : List (String × α)) (k : String) (v : α) : List (String × α) :=
  if hasKey t k then updAll t k v else t ++ [(k, v)]

/-- sqlite-utils `upsert_all`: upsert a batch of records in order. -/
def upsertAll {α : Type} (t : List (String × α)) (batch : List (String × α)) :
    List (String × α) :=
  batch.foldl (fun acc r => upsertOne acc r.1 r.2) t

/-- Row lookup by primary key. -/
def tblGet {α : Type} (t : List (String × α)) (k : String) : Option α :=
  (t.find? (fun r => r.1 == k)).map (fun r => r.2)

/-- sqlite `DELETE ... WHERE pk = k`. -/
def deleteKey {α : Type} (t : List (String × α)) (k : String) : List (String × α) :=
  t.filter (fun r => !(r.1 == k))

/-- The value the last write for key `k` in a batch carries, if any
(last-write-wins order of `upsert_all`). -/
def lastVal {α : Type} : List (String × α) → String → Option α
  | [], _ => none
  | r :: rest, k =>
    match lastVal rest k with
    | some v => some v
    | none => if r.1 == k then some r.2 else none

/-- Key uniqueness invariant: at most one row per identifier. -/
def keysNodup {α : Type} (t : List (String × α)) : Prop :=
  (t.map Prod.fst).Nodup

theorem updAll_cons {α : Type} (r : String × α) (rest : List (String × α)) (k : String)
    (v : α) :
    updAll (r :: rest) k v = (if r.1 == k then (k, v) else r) :: updAll rest k v := rfl

theorem keys_updAll {α : Type} (t : List (String × α)) (k : String) (v : α) :
    (updAll t k v).map Prod.fst = t.map Prod.fst := by
  induction t with
  | nil => rfl
  | cons r rest ih =>
    rw [updAll_cons]
    cases hr : (r.1 == k) with
    | true =>
      rw [if_pos rfl]
      have hk : r.1 = k := beq_iff_eq.mp hr
      simp only [List.map_cons, ih, hk]
    | false =>
      rw [if_neg (by simp)]
      simp only [List.map_cons, ih]

theorem hasKey_cons {α : Type} (r : String × α) (rest : List (String × α)) (k : String) :
    hasKey (r :: rest) k = ((r.1 == k) || hasKey rest k) := by
  simp [hasKey]

theorem hasKey_updAll {α : Type} (t : List (String × α)) (k k' : String) (v : α) :
    hasKey (updAll t k v) k' = hasKey t k' := by
  induction t with
  | nil => rfl
  | cons r rest ih =>
    rw [updAll_cons, hasKey_cons, hasKey_cons, ih]
    cases hr : (r.1 == k) with
    | true =>
      rw [if_pos rfl]
      have hk : r.1 = k := beq_iff_eq.mp hr
      simp [hk]
    | false =>
      rw [if_neg (by simp)]

theorem tblGet_cons {α : Type} (r : String × α) (rest : List (String × α)) (k : String) :
    tblGet (r :: rest) k = if r.1 == k then some r.2 else tblGet rest k := by
  cases hr : (r.1 == k) with
  | true => simp [tblGet, List.find?, hr]
  | false => simp [tblGet, List.find?, hr]

theorem tblGet_updAll_self {α : Type} (t : List (String × α)) (k : String) (v : α)
    (h : hasKey t k = true) : tblGet (updAll t k v) k = some v := by
  induction t with
  | nil => simp [hasKey] at h
  | cons r rest ih =>
    rw [updAll_cons]
    cases hr : (r.1 == k) with
    | true =>
      rw [if_pos rfl, tblGet_cons]
      simp
    | false =>
      rw [if_neg (by simp), tblGet_cons, if_neg (by simp [hr])]
      rw [hasKey_cons, hr] at h
      exact ih (by simpa using h)

theorem tblGet_updAll_other {α : Type} (t : List (String × α)) (k k' : String) (v : α)
    (h : k' ≠ k) : tblGet (updAll t k v) k' = tblGet t k' := by
  induction t with
  | nil => rfl
  | cons r rest ih =>
    rw [updAll_cons]
    cases hr : (r.1 == k) with
    | true =>
      have hk : r.1 = k := beq_iff_eq.mp hr
      rw [if_pos rfl, tblGet_cons, tblGet_cons]
      rw [if_neg (by simp; exact fun hc => h hc.symm)]
      rw [if_neg (by simp [hk]; exact fun hc => h hc.symm)]
      exact ih
    | false =>
      rw [if_neg (by simp), tblGet_cons, tblGet_cons]
      cases hr' : (r.1 == k') with
      | true => rw [if_pos rfl, if_pos rfl]
      | false =>
        rw [if_neg (by simp), if_neg (by simp)]
        exact ih

theorem tblGet_append_absent {α : Type} (t l : List (String × α)) (k : String)
    (h : hasKey t k = false) : tblGet (t ++ l) k = tblGet l k := by
  induction t with
  | nil => rfl
  | cons r rest ih =>
    rw [hasKey_cons, Bool.or_eq_false_iff] at h
    rw [List.cons_append, tblGet_cons, if_neg (by simp [h.1])]
    exact ih h.2

theorem tblGet_append_one_other {α : Type} (t : List (String × α)) (k k' : String) (v : α)
    (h : k' ≠ k) : tblGet (t ++ [(k, v)]) k' = tblGet t k' := by
  induction t with
  | nil =>
    show tblGet [(k, v)] k' = none
    rw [tblGet_cons, if_neg (by simp; exact fun hc => h hc.symm)]
    rfl
  | cons r rest ih =>
    rw [List.cons_append, tblGet_cons, tblGet_cons]
    cases hr : (r.1 == k') with
    | true => rw [if_pos rfl, if_pos rfl]
    | false =>
      rw [if_neg (by simp), if_neg (by simp)]
      exact ih

theorem tblGet_upsertOne_self {α : Type} (t : List (String × α)) (k : String) (v : α) :
    tblGet (upsertOne t k v) k = some v := by
  unfold upsertOne
  cases h : hasKey t k with
  | true =>
    rw [if_pos rfl]
    exact tblGet_updAll_self t k v h
  | false =>
    rw [if_neg (by simp)]
    rw [tblGet_append_absent t [(k, v)] k h, tblGet_cons, if_pos (by simp)]

theorem tblGet_upsertOne_other {α : Type} (t : List (String × α)) (k k' : String) (v : α)
    (h : k' ≠ k) : tblGet (upsertOne t k v) k' = tblGet t k' := by
  unfold upsertOne
  cases hh : hasKey t k with
  | true =>
    rw [if_pos rfl]
    exact tblGet_updAll_other t k k' v h
  | false =>
    rw [if_neg (by simp)]
    exact tblGet_append_one_other t k k' v h

theorem tblGet_upsertAll {α : Type} (b : List (String × α)) :
    ∀ (t : List (String × α)) (k : String),
      tblGet (upsertAll t b) k =
        match lastVal b k with
        | some v => some v
        | none => tblGet t k := by
  induction b with
  | nil => intro t k; rfl
  | cons r rest ih =>
    intro t k
    show tblGet (upsertAll (upsertOne t r.1 r.2) rest) k = _
    rw [ih (upsertOne t r.1 r.2) k]
    have hlv : lastVal (r :: rest) k =
        match lastVal rest k with
        | some v => some v
        | none => if r.1 == k then some r.2 else none := rfl
    rw [hlv]
    cases hl : lastVal rest k with
    | some v => rfl
    | none =>
      cases hk : (r.1 == k) with
      | true =>
        rw [if_pos rfl]
        have hk2 : r.1 = k := beq_iff_eq.mp hk
        subst hk2
        exact tblGet_upsertOne_self t r.1 r.2
      | false =>
        rw [if_neg (by simp)]
        exact tblGet_upsertOne_other t r.1 k r.2
          (fun hc => by rw [hc] at hk; simp at hk)

theorem length_updAll {α : Type} (t : List (String × α)) (k : String) (v : α) :
    (updAll t k v).length = t.length := by
  simp [updAll]

theorem length_upsertOne {α : Type} (t : List (String × α)) (k : String) (v : α)
    (h : hasKey t k = true) : (upsertOne t k v).length = t.length := by
  simp [upsertOne, h, length_updAll]

theorem hasKey_upsertOne {α : Type} (t : List (String × α)) (k k' : String) (v : α) :
    hasKey (upsertOne t k v) k' = (hasKey t k' || (k == k')) := by
  unfold upsertOne
  cases h : hasKey t k with
  | true =>
    rw [if_pos rfl, hasKey_updAll]
    cases hk : (k == k') with
    | true =>
      have : k = k' := beq_iff_eq.mp hk
      subst this
      simp [h]
    | false => simp
  | false =>
    rw [if_neg (by simp)]
    simp [hasKey, List.any_append]

theorem length_upsertAll_present {α : Type} (b : List (String × α)) :
    ∀ (t : List (String × α)), (∀ r ∈ b, hasKey t r.1 = true) →
      (upsertAll t b).length = t.length := by
  induction b with
  | nil => intro t _; rfl
  | cons r rest ih =>
    intro t h
    show (upsertAll (upsertOne t r.1 r.2) rest).length = t.length
    rw [ih (upsertOne t r.1 r.2) ?_]
    · exact length_upsertOne t r.1 r.2 (h r (List.mem_cons_self r rest))
    · intro s hs
      rw [hasKey_upsertOne]
      simp [h s (List.mem_cons_of_mem r hs)]

theorem hasKey_upsertAll_mono {α : Type} (b : List (String × α)) :
    ∀ (t : List (String × α)) (k : String), hasKey t k = true →
      hasKey (upsertAll t b) k = true := by
  induction b with
  | nil => intro t k h; exact h
  | cons r rest ih =>
    intro t k h
    show hasKey (upsertAll (upsertOne t r.1 r.2) rest) k = true
    exact ih _ k (by rw [hasKey_upsertOne]; simp [h])

theorem hasKey_upsertAll_of_batch {α : Type} (b : List (String × α)) :
    ∀ (t : List (String × α)) (r : String × α), r ∈ b →
      hasKey (upsertAll t b) r.1 = true := by
  induction b with
  | nil => intro t r h; cases h
  | cons s rest ih =>
    intro t r h
    rcases List.mem_cons.mp h with h | h
    · subst h
      show hasKey (upsertAll (upsertOne t r.1 r.2) rest) r.1 = true
      exact hasKey_upsertAll_mono rest _ r.1 (by rw [hasKey_upsertOne]; simp)
    · exact ih _ r h

theorem hasKey_false_not_mem_keys {α : Type} (t : List (String × α)) (k : String)
    (h : hasKey t k = false) : k ∉ t.map Prod.fst := by
  intro hm
  rcases List.mem_map.mp hm with ⟨r, hr, hk⟩
  have h1 : (r.1 == k) = true := by simp [hk]
  have h2 : t.any (fun r => r.1 == k) = true := List.any_eq_true.mpr ⟨r, hr, h1⟩
  simp [hasKey, h2] at h

theorem keysNodup_upsertOne {α : Type} (t : List (String × α)) (k : String) (v : α)
    (h : keysNodup t) : keysNodup (upsertOne t k v) := by
  unfold upsertOne
  cases hh : hasKey t k with
  | true =>
    rw [if_pos rfl]
    unfold keysNodup
    rw [keys_updAll]
    exact h
  | false =>
    rw [if_neg (by simp)]
    unfold keysNodup
    rw [List.map_append]
    simp only [List.map_cons, List.map_nil]
    rw [List.nodup_append]
    refine ⟨h, List.nodup_singleton k, ?_⟩
    intro a ha hb
    rcases List.mem_singleton.mp hb with rfl
    exact hasKey_false_not_mem_keys t a hh ha

theorem keysNodup_upsertAll {α : Type} (b : List (String × α)) :
    ∀ (t : List (String × α)), keysNodup t → keysNodup (upsertAll t b) := by
  induction b with
  | nil => intro t h; exact h
  | cons r rest ih =>
    intro t h
    exact ih _ (keysNodup_upsertOne t r.1 r.2 h)

theorem keysNodup_deleteKey {α : Type} (t : List (String × α)) (k : String)
    (h : keysNodup t) : keysNodup (deleteKey t k) := by
  unfold keysNodup deleteKey at *
  exact List.Nodup.sublist (List.Sublist.map Prod.fst (List.filter_sublist t)) h

/-- Python's substring operator `pat in s`, over explicit character lists. -/
def charsHavePre : List Char → List Char → Bool
  | [], _ => true
  | _ :: _, [] => false
  | a :: as, b :: bs => a == b && charsHavePre as bs

def charsContain (pat : List Char) : List Char → Bool
  | [] => charsHavePre pat []
  | b :: bs => charsHavePre pat (b :: bs) || charsContain pat bs

/-- Embeds Python's substring test `pat in s` as `strContains s pat`. -/
def strContains (s pat : String) : Bool := charsContain pat.toList s.toList

/-- Exceptions, classified the way `main`'s two `except` clauses classify them:
`net` is any member of the `NETWORK_ERRORS` tuple (carrying `type(e).__name__`
and `str(e)`), `other` is every other `Exception` (carrying `str(e)`). -/
inductive Exn where
  | net (tyName : String) (msg : String)
  | other (msg : String)
  deriving DecidableEq

/-- Python's `str(e)` on a caught exception. -/
def exnStr : Exn → String
  | Exn.net _ m => m
  | Exn.other m => m

/-- A row of the `sync_state` table (pk `service`).  `sync_token` and
`last_sync` are `Option` because `get_sync_state` returns a dict with `None`
in those slots when no row exists; stored rows always hold strings. -/
structure SyncRow where
  service : String
  sync_token : Option String
  last_sync : Option String
  record_count : Nat
  deriving DecidableEq

/-- Database write events, recorded in the order they are issued so that
ordering properties (cursor committed after mirror writes) can be stated. -/
inductive Ev where
  | wr (table : String)
  | dropT (table : String)
  | fts (table : String)
  | setSt (service : String)
  deriving DecidableEq

/-- The cache database: the `sync_state` table, the mirror tables by name,
and the set of tables whose FTS index has been enabled (with its columns). -/
structure Db where
  syncState : List (String × SyncRow)
  tables : List (String × Tbl)
  ftsCols : List (String × List String)
  deriving DecidableEq

/-- A database handle together with the trace of write events issued so far
(most recent event first). -/
structure Eff where
  db : Db
  tr : List Ev
  deriving DecidableEq

def dbGetTbl (db : Db) (t : String) : Tbl :=
  ((db.tables.find? (fun p => p.1 == t)).map (fun p => p.2)).getD []

/-- Checks `t in db.table_names()` for mirror tables. -/
def dbHasTbl (db : Db) (t : String) : Bool :=
  db.tables.any (fun p => p.1 == t)

/-- Embeds `db[t].upsert_all(batch, pk=..., alter=True)`: creates the table if
missing, then upserts every record by primary key. -/
def dbUpsertAllTbl (db : Db) (t : String) (batch : Tbl) : Db :=
  { db with tables := upsertOne db.tables t (upsertAll (dbGetTbl db t) batch) }

/-- Embeds `db[t].delete(k)` wrapped in the code's `try/except: pass`: a no-op when
the table does not exist or the delete fails. -/
def dbDeleteRow (db : Db) (t : String) (k : String) : Db :=
  if dbHasTbl db t then { db with tables := upsertOne db.tables t (deleteKey (dbGetTbl db t) k) }
  else db

/-- Embeds `db[t].drop()`: the mirror table disappears from `table_names()`; the FTS
shadow structures are not dropped by this call. -/
def dbDropTbl (db : Db) (t : String) : Db :=
  { db with tables := db.tables.filter (fun p => !(p.1 == t)) }

/-- Checks `f"{t}_fts" in db.table_names()`: has FTS been enabled on `t`? -/
def dbFtsOn (db : Db) (t : String) : Bool :=
  db.ftsCols.any (fun p => p.1 == t)

def dbEnableFts (db : Db) (t : String) (cols : List String) : Db :=
  { db with ftsCols := db.ftsCols ++ [(t, cols)] }

def upsertAllEff (eff : Eff) (t : String) (batch : Tbl) : Eff :=
  ⟨dbUpsertAllTbl eff.db t batch, Ev.wr t :: eff.tr⟩

def deleteRowEff (eff : Eff) (t : String) (k : String) : Eff :=
  ⟨dbDeleteRow eff.db t k, Ev.wr t :: eff.tr⟩

def dropTblEff (eff : Eff) (t : String) : Eff :=
  ⟨dbDropTbl eff.db t, Ev.dropT t :: eff.tr⟩

/-- Embeds `if t in db.table_names(): db[t].drop()`. -/
def dropTblIfEff (eff : Eff) (t : String) : Eff :=
  if dbHasTbl eff.db t then dropTblEff eff t else eff

/-- Embeds `_ensure_fts`: enable FTS5 once per table; `enable_fts` on a missing
table raises, which the code swallows (`except: pass`). -/
def ensure_fts (eff : Eff) (t : String) (cols : List String) : Eff :=
  if dbFtsOn eff.db t then eff
  else if dbHasTbl eff.db t then ⟨dbEnableFts eff.db t cols, Ev.fts t :: eff.tr⟩
  else eff

/-- The zero-value sync state `get_sync_state` returns when no row exists:
`{"service": svc, "sync_token": None, "last_sync": None, "record_count": 0}`. -/
def zeroRow (svc : String) : SyncRow := ⟨svc, none, none, 0⟩

/-- The raw `db["sync_state"].get(service)` call: `ok` with the row, or an
exception (`NotFoundError` when absent; any sqlite error when corrupt). -/
def rawGetState (db : Db) (svc : String) : Except String SyncRow :=
  match tblGet db.syncState svc with
  | some r => Except.ok r
  | none => Except.error "NotFoundError"

/-- The `try/except` body of `get_sync_state`, applied to the outcome of the
underlying read: any failure (absent or unreadable row) yields the zero
state. -/
def getSyncStateR (r : Except String SyncRow) (svc : String) : SyncRow :=
  match r with
  | Except.ok row => row
  | Except.error _ => zeroRow svc

/-- Embeds `get_sync_state(db, service)`. -/
def get_sync_state (db : Db) (svc : String) : SyncRow :=
  getSyncStateR (rawGetState db svc) svc

/-- Embeds `set_sync_state(db, service, sync_token, record_count)`: upsert by
service name, storing `sync_token or ""` and stamping `last_sync = now`. -/
def set_sync_state (db : Db) (svc : String) (tok : Option String) (cnt : Nat)
    (now : String) : Db :=
  { db with syncState := upsertOne db.syncState svc ⟨svc, some (tok.getD ""), some now, cnt⟩ }

def setStateEff (eff : Eff) (svc : String) (tok : Option String) (cnt : Nat)
    (now : String) : Eff :=
  ⟨set_sync_state eff.db svc tok cnt now, Ev.setSt svc :: eff.tr⟩

/-- The truthiness test `if sync_token:` applied to the stored token:
`None` and `""` are both falsy, i.e. "no incremental baseline". -/
def cursorOf (r : SyncRow) : Option String :=
  match r.sync_token with
  | none => none
  | some s => if s == "" then none else some s

def countTbl (db : Db) (t : String) : Nat := (dbGetTbl db t).length

/-- Embeds `db[t].count if t in db.table_names() else 0`. -/
def countTblGuard (db : Db) (t : String) : Nat :=
  if dbHasTbl db t then countTbl db t else 0

/-- The unguarded `db[t].count`, which raises `no such table` when the table
was never created (e.g. a full sync that ingested zero records). -/
def countTblStrict (db : Db) (t : String) : Except Exn Nat :=
  if dbHasTbl db t then Except.ok (countTbl db t) else Except.error (Exn.other "no such table")

/-- The adapter outcome: the returned changed-record count, or the raised
exception. -/
inductive Res where
  | ok (n : Nat)
  | exn (e : Exn)
  deriving DecidableEq

/-! ### Gmail adapter -/

/-- A Gmail message as returned by `users().messages().get(format="metadata")`. -/
structure GmailMsg where
  id : String
  threadId : String
  snippet : String
  headers : List (String × String)
  labelIds : List String
  sizeEstimate : Nat
  deriving DecidableEq

/-- One page of `users().history().list`, flattened into the four per-type id
lists the code reads from each history record. -/
structure GHistPage where
  added : List String
  deleted : List String
  labelsAdded : List String
  labelsRemoved : List String
  nextPageToken : Option String
  deriving DecidableEq

/-- The Gmail API oracle: list pages of message stubs, fetch one message's
metadata, list history pages from a start history id, and `getProfile`
(returning the current `historyId`, possibly absent). -/
structure GmailServer where
  listPage : Option String → Except Exn (List String × Option String)
  getMsg : String → Except Exn GmailMsg
  histPage : String → Option String → Except Exn GHistPage
  profile : Except Exn (Option String)

/-- Embeds `headers.get(k, "")`. -/
def hdrOf (hs : List (String × String)) (k : String) : String :=
  ((hs.find? (fun p => p.1 == k)).map (fun p => p.2)).getD ""

/-- Renders `json.dumps` of a list of strings (fixed injective encoding). -/
def jsonStrList (xs : List String) : String :=
  "[" ++ String.intercalate ", " (xs.map (fun s => "\x22" ++ s ++ "\x22")) ++ "]"

/-- The message dict built by `sync_gmail`'s fetch loops, keyed by
`message_id`. -/
def gmailNormalize (m : GmailMsg) : String × Rec :=
  (m.id,
    [("message_id", m.id), ("thread_id", m.threadId), ("snippet", m.snippet),
     ("sender", hdrOf m.headers "From"), ("recipients", hdrOf m.headers "To"),
     ("cc", hdrOf m.headers "Cc"), ("subject", hdrOf m.headers "Subject"),
     ("date", hdrOf m.headers "Date"), ("labels", jsonStrList m.labelIds),
     ("size", toString m.sizeEstimate)])

/-- The inner per-stub loop of `_gmail_full`: fetch each message (individual
fetch failures are skipped), append to the pending batch, and flush the batch
with `upsert_all` whenever it reaches 100 records. -/
def gmailStubsLoop (srv : GmailServer) : List String → Tbl → Eff → Tbl × Eff
  | [], pending, eff => (pending, eff)
  | i :: rest, pending, eff =>
    match srv.getMsg i with
    | Except.error _ => gmailStubsLoop srv rest pending eff
    | Except.ok m =>
      let pending2 := pending ++ [gmailNormalize m]
      if pending2.length ≥ 100 then
        gmailStubsLoop srv rest [] (upsertAllEff eff "gmail_messages" pending2)
      else gmailStubsLoop srv rest pending2 eff

/-- The `while True` paging loop of `_gmail_full`; a raised `list` call
propagates, discarding the pending in-memory batch. -/
def gmailFullLoop (srv : GmailServer) : Nat → Option String → Tbl → Eff →
    Option (Eff × Except Exn Unit)
  | 0, _, _, _ => none
  | fuel + 1, ptok, pending, eff =>
    match srv.listPage ptok with
    | Except.error e => some (eff, Except.error e)
    | Except.ok (ids, next) =>
      let pe := gmailStubsLoop srv ids pending eff
      match next with
      | none =>
        some ((if pe.1.isEmpty then pe.2 else upsertAllEff pe.2 "gmail_messages" pe.1),
              Except.ok ())
      | some tk => gmailFullLoop srv fuel (some tk) pe.1 pe.2

/-- Embeds `_gmail_full`: page through everything, flush the final batch, enable
FTS, and return `db["gmail_messages"].count` (unguarded). -/
def gmail_full (srv : GmailServer) (fuel : Nat) (eff : Eff) :
    Option (Eff × Except Exn Nat) :=
  match gmailFullLoop srv fuel none [] eff with
  | none => none
  | some (eff1, Except.error e) => some (eff1, Except.error e)
  | some (eff1, Except.ok _) =>
    let eff2 := ensure_fts eff1 "gmail_messages" ["subject", "sender", "recipients", "snippet"]
    match countTblStrict eff2.db "gmail_messages" with
    | Except.error e => some (eff2, Except.error e)
    | Except.ok n => some (eff2, Except.ok n)

/-- Python `set.add`: insert an id unless already present. -/
def insertNew (l : List String) (x : String) : List String :=
  if l.contains x then l else l ++ [x]

/-- The history paging loop of `_gmail_incremental`: deletions are applied to
the mirror immediately, added/label-changed ids accumulate in `changed_ids`. -/
def gmailHistLoop (srv : GmailServer) : Nat → String → Option String → List String → Eff →
    Option (Eff × Except Exn (List String))
  | 0, _, _, _, _ => none
  | fuel + 1, hid, ptok, changed, eff =>
    match srv.histPage hid ptok with
    | Except.error e => some (eff, Except.error e)
    | Except.ok page =>
      let changed1 := page.added.foldl insertNew changed
      let eff1 := page.deleted.foldl (fun ef i => deleteRowEff ef "gmail_messages" i) eff
      let changed2 := (page.labelsAdded ++ page.labelsRemoved).foldl insertNew changed1
      match page.nextPageToken with
      | none => some (eff1, Except.ok changed2)
      | some tk => gmailHistLoop srv fuel hid (some tk) changed2 eff1

/-- The post-loop fetch of `_gmail_incremental`: refetch metadata for each
changed id, skipping individual failures. -/
def gmailFetchChanged (srv : GmailServer) (ids : List String) : Tbl :=
  ids.filterMap (fun i =>
    match srv.getMsg i with
    | Except.ok m => some (gmailNormalize m)
    | Except.error _ => none)

/-- Embeds `_gmail_incremental(db, service, history_id)`. -/
def gmail_incremental (srv : GmailServer) (fuel : Nat) (hid : String) (eff : Eff) :
    Option (Eff × Except Exn Nat) :=
  match gmailHistLoop srv fuel hid none [] eff with
  | none => none
  | some (eff1, Except.error e) => some (eff1, Except.error e)
  | some (eff1, Except.ok changed) =>
    let msgs := gmailFetchChanged srv changed
    let eff2 := if msgs.isEmpty then eff1 else upsertAllEff eff1 "gmail_messages" msgs
    some (eff2, Except.ok changed.length)

/-- The branch of `sync_gmail` that chooses incremental vs full: with a
cursor it tries incremental and falls back to a full sync on *any*
exception; without one it goes straight to full sync. -/
def gmailIngest (srv : GmailServer) (fuel : Nat) (hid : Option String) (eff : Eff) :
    Option (Eff × Except Exn Nat) :=
  match hid with
  | none => gmail_full srv fuel eff
  | some h =>
    match gmail_incremental srv fuel h eff with
    | none => none
    | some (eff1, Except.ok c) => some (eff1, Except.ok c)
    | some (eff1, Except.error _) => gmail_full srv fuel eff1

/-- Embeds `sync_gmail(db, creds)`: ingest, then fetch the fresh `historyId` from
`getProfile`, then commit cursor and count via `set_sync_state`. -/
def sync_gmail (srv : GmailServer) (fuel : Nat) (now : String) (eff : Eff) :
    Option (Eff × Res) :=
  match gmailIngest srv fuel (cursorOf (get_sync_state eff.db "gmail")) eff with
  | none => none
  | some (eff1, Except.error e) => some (eff1, Res.exn e)
  | some (eff1, Except.ok count) =>
    match srv.profile with
    | Except.error e => some (eff1, Res.exn e)
    | Except.ok newHid =>
      let total := countTblGuard eff1.db "gmail_messages"
      some (setStateEff eff1 "gmail" newHid total now, Res.ok count)

/-! ### Calendar adapter -/

/-- Models `event["start"]` / `event["end"]`: either a `dateTime` or an all-day
`date`. -/
structure CalTime where
  dateTime : Option String
  date : Option String
  deriving DecidableEq

structure CalEvent where
  id : String
  status : String
  summary : String
  description : String
  location : String
  startT : CalTime
  endT : CalTime
  attendees : List String
  htmlLink : String
  recurringEventId : String
  deriving DecidableEq

structure CalPage where
  items : List CalEvent
  nextPageToken : Option String
  nextSyncToken : Option String
  deriving DecidableEq

/-- The Calendar API oracle: `events().list(calendarId="primary",
maxResults=250, syncToken?, timeMin?, pageToken?)`. -/
structure CalServer where
  listPage : Option String → Option String → Option String → Except Exn CalPage

/-- Embeds `start.get("dateTime", start.get("date", ""))`. -/
def calTimeStr (t : CalTime) : String := (t.dateTime).getD ((t.date).getD "")

def calNormalize (ev : CalEvent) : String × Rec :=
  (ev.id,
    [("event_id", ev.id), ("summary", ev.summary), ("description", ev.description),
     ("location", ev.location), ("start_time", calTimeStr ev.startT),
     ("end_time", calTimeStr ev.endT), ("status", ev.status),
     ("attendees", jsonStrList ev.attendees), ("html_link", ev.htmlLink),
     ("recurring_event_id", ev.recurringEventId)])

/-- The per-item loop of `sync_calendar`: cancelled events are deleted from
the mirror immediately, others accumulate in the in-memory `events` list. -/
def calItemsLoop : List CalEvent → Tbl → Eff → Tbl × Eff
  | [], acc, eff => (acc, eff)
  | ev :: rest, acc, eff =>
    if ev.status == "cancelled" then
      calItemsLoop rest acc (deleteRowEff eff "calendar_events" ev.id)
    else calItemsLoop rest (acc ++ [calNormalize ev]) eff

/-- Builds `base_kwargs`: with a cursor it carries `syncToken`; without one it is a
full listing from `timeMin = 2020-01-01`. -/
def calBase (tok : Option String) : Option String × Option String :=
  match tok with
  | some t => (some t, none)
  | none => (none, some "2020-01-01T00:00:00Z")

/-- The `while True` paging loop of `sync_calendar`; `new_sync_token` is
overwritten with each page's `nextSyncToken`, so the last page's value (or
`None`) is what gets committed. -/
def calListLoop (srv : CalServer) : Nat → Option String → Option String → Option String →
    Tbl → Eff → Option (Eff × Except Exn (Tbl × Option String))
  | 0, _, _, _, _, _ => none
  | fuel + 1, syncTok, timeMin, ptok, acc, eff =>
    match srv.listPage syncTok timeMin ptok with
    | Except.error e => some (eff, Except.error e)
    | Except.ok page =>
      let ae := calItemsLoop page.items acc eff
      match page.nextPageToken with
      | none => some (ae.2, Except.ok (ae.1, page.nextSyncToken))
      | some tk => calListLoop srv fuel syncTok timeMin (some tk) ae.1 ae.2

/-- Embeds `sync_calendar(db, creds)`: on an exception whose text contains "410" it
drops `calendar_events` and recurses into itself (the fuel argument bounds
that retry recursion). -/
def sync_calendar (srv : CalServer) : Nat → String → Eff → Option (Eff × Res)
  | 0, _, _ => none
  | fuel + 1, now, eff =>
    let tok := cursorOf (get_sync_state eff.db "calendar")
    let base := calBase tok
    match calListLoop srv (fuel + 1) base.1 base.2 none [] eff with
    | none => none
    | some (eff1, Except.error e) =>
      if strContains (exnStr e) "410" then
        sync_calendar srv fuel now (dropTblIfEff eff1 "calendar_events")
      else some (eff1, Res.exn e)
    | some (eff1, Except.ok (events, newTok)) =>
      let eff2 := if events.isEmpty then eff1 else upsertAllEff eff1 "calendar_events" events
      let eff3 := ensure_fts eff2 "calendar_events" ["summary", "description", "location"]
      let total := countTblGuard eff3.db "calendar_events"
      some (setStateEff eff3 "calendar" newTok total now, Res.ok events.length)

/-! ### Contacts adapter -/

structure PName where
  displayName : String
  givenName : String
  familyName : String
  deriving DecidableEq

structure POrg where
  orgName : String
  title : String
  deriving DecidableEq

structure Person where
  resourceName : String
  deleted : Bool
  names : List PName
  emails : List String
  phones : List String
  orgs : List POrg
  deriving DecidableEq

structure PplPage where
  connections : List Person
  nextPageToken : Option String
  nextSyncToken : Option String
  deriving DecidableEq

/-- The People API oracle: `people().connections().list(resourceName=
"people/me", pageSize=1000, personFields=..., requestSyncToken=True,
syncToken?, sortOrder?, pageToken?)`. -/
structure PplServer where
  listPage : Option String → Option String → Option String → Except Exn PplPage

def pplNormalize (p : Person) : String × Rec :=
  (p.resourceName,
    [("resource_name", p.resourceName),
     ("name", ((p.names.head?).map (fun n => n.displayName)).getD ""),
     ("given_name", ((p.names.head?).map (fun n => n.givenName)).getD ""),
     ("family_name", ((p.names.head?).map (fun n => n.familyName)).getD ""),
     ("email", (p.emails.head?).getD ""),
     ("phone", (p.phones.head?).getD ""),
     ("organization", ((p.orgs.head?).map (fun o => o.orgName)).getD ""),
     ("title", ((p.orgs.head?).map (fun o => o.title)).getD "")])

/-- The per-person loop of `sync_contacts`: tombstoned people are deleted
(if their `resourceName` is truthy), others accumulate. -/
def pplItemsLoop : List Person → Tbl → Eff → Tbl × Eff
  | [], acc, eff => (acc, eff)
  | p :: rest, acc, eff =>
    if p.deleted then
      if p.resourceName == "" then pplItemsLoop rest acc eff
      else pplItemsLoop rest acc (deleteRowEff eff "contacts" p.resourceName)
    else pplItemsLoop rest (acc ++ [pplNormalize p]) eff

/-- The kwargs of each `connections().list` call: `syncToken` only on the
first page of an incremental pass, `sortOrder` only on the first page of a
full pass, `pageToken` afterwards. -/
def pplReq (syncTok : Option String) (ptok : Option String) :
    Option String × Option String × Option String :=
  match ptok with
  | some tk => (none, none, some tk)
  | none =>
    match syncTok with
    | some st => (some st, none, none)
    | none => (none, some "LAST_NAME_ASCENDING", none)

def pplListLoop (srv : PplServer) : Nat → Option String → Option String → Tbl → Eff →
    Option (Eff × Except Exn (Tbl × Option String))
  | 0, _, _, _, _ => none
  | fuel + 1, syncTok, ptok, acc, eff =>
    let rq := pplReq syncTok ptok
    match srv.listPage rq.1 rq.2.1 rq.2.2 with
    | Except.error e => some (eff, Except.error e)
    | Except.ok page =>
      let ae := pplItemsLoop page.connections acc eff
      match page.nextPageToken with
      | none => some (ae.2, Except.ok (ae.1, page.nextSyncToken))
      | some tk => pplListLoop srv fuel syncTok (some tk) ae.1 ae.2

/-- Embeds `sync_contacts(db, creds)`: the expiry test is
`"EXPIRED_SYNC_TOKEN" in str(e) or "syncToken" in str(e).lower()`; on match
it drops `contacts` and recurses into itself. -/
def sync_contacts (srv : PplServer) : Nat → String → Eff → Option (Eff × Res)
  | 0, _, _ => none
  | fuel + 1, now, eff =>
    let tok := cursorOf (get_sync_state eff.db "contacts")
    match pplListLoop srv (fuel + 1) tok none [] eff with
    | none => none
    | some (eff1, Except.error e) =>
      if strContains (exnStr e) "EXPIRED_SYNC_TOKEN"
          || strContains (exnStr e).toLower "syncToken" then
        sync_contacts srv fuel now (dropTblIfEff eff1 "contacts")
      else some (eff1, Res.exn e)
    | some (eff1, Except.ok (contacts, newTok)) =>
      let eff2 := if contacts.isEmpty then eff1 else upsertAllEff eff1 "contacts" contacts
      let eff3 := ensure_fts eff2 "contacts" ["name", "email", "organization", "title"]
      let total := countTblGuard eff3.db "contacts"
      some (setStateEff eff3 "contacts" newTok total now, Res.ok contacts.length)

/-! ### Drive adapter -/

structure DriveFile where
  id : String
  name : String
  mimeType : String
  size : String
  modifiedTime : String
  parents : List String
  trashed : Bool
  shared : Bool
  owners : List String
  deriving DecidableEq

structure DriveChange where
  fileId : String
  removed : Bool
  file : Option DriveFile
  deriving DecidableEq

structure DriveChangesPage where
  changes : List DriveChange
  nextPageToken : Option String
  newStartPageToken : Option String
  deriving DecidableEq

/-- The Drive API oracle: full file listing pages, `changes().
getStartPageToken()` and `changes().list` pages. -/
structure DriveServer where
  listPage : Option String → Except Exn (List DriveFile × Option String)
  getStartPageToken : Except Exn (Option String)
  changesPage : String → Except Exn DriveChangesPage

def boolStr (b : Bool) : String := if b then "True" else "False"

def driveNormalize (f : DriveFile) : String × Rec :=
  (f.id,
    [("file_id", f.id), ("name", f.name), ("mime_type", f.mimeType), ("size", f.size),
     ("modified_time", f.modifiedTime), ("parents", jsonStrList f.parents),
     ("trashed", boolStr f.trashed), ("shared", boolStr f.shared),
     ("owner", (f.owners.head?).getD ""),
     ("is_folder", boolStr (f.mimeType == "application/vnd.google-apps.folder"))])

/-- The paging loop of `_drive_full`: after each page the accumulated batch
is flushed if it has reached 500 records, and the remainder is flushed when
the last page has been processed. -/
def driveFullLoop (srv : DriveServer) : Nat → Option String → Tbl → Eff →
    Option (Eff × Except Exn Unit)
  | 0, _, _, _ => none
  | fuel + 1, ptok, files, eff =>
    match srv.listPage ptok with
    | Except.error e => some (eff, Except.error e)
    | Except.ok (page, next) =>
      let files1 := files ++ page.map driveNormalize
      let fe : Tbl × Eff :=
        if files1.length ≥ 500 then ([], upsertAllEff eff "drive_files" files1)
        else (files1, eff)
      match next with
      | none =>
        some ((if fe.1.isEmpty then fe.2 else upsertAllEff fe.2 "drive_files" fe.1),
              Except.ok ())
      | some tk => driveFullLoop srv fuel (some tk) fe.1 fe.2

/-- Embeds `_drive_full`: page, flush, enable FTS, return the unguarded
`db["drive_files"].count`. -/
def drive_full (srv : DriveServer) (fuel : Nat) (eff : Eff) :
    Option (Eff × Except Exn Nat) :=
  match driveFullLoop srv fuel none [] eff with
  | none => none
  | some (eff1, Except.error e) => some (eff1, Except.error e)
  | some (eff1, Except.ok _) =>
    let eff2 := ensure_fts eff1 "drive_files" ["name", "owner"]
    match countTblStrict eff2.db "drive_files" with
    | Except.error e => some (eff2, Except.error e)
    | Except.ok n => some (eff2, Except.ok n)

/-- The per-change loop of `_drive_incremental`: removals delete, present
files are upserted one record at a time; every change increments the count. -/
def driveChangesItems : List DriveChange → Nat → Eff → Nat × Eff
  | [], changed, eff => (changed, eff)
  | c :: rest, changed, eff =>
    if c.removed then
      driveChangesItems rest (changed + 1) (deleteRowEff eff "drive_files" c.fileId)
    else
      match c.file with
      | none => driveChangesItems rest (changed + 1) eff
      | some f =>
        driveChangesItems rest (changed + 1) (upsertAllEff eff "drive_files" [driveNormalize f])

/-- The paging loop of `_drive_incremental`: `new_token` starts as the old
page token and is replaced whenever a page carries `newStartPageToken`. -/
def driveChangesLoop (srv : DriveServer) : Nat → String → Nat → String → Eff →
    Option (Eff × Except Exn (Nat × String))
  | 0, _, _, _, _ => none
  | fuel + 1, ptok, changed, newTok, eff =>
    match srv.changesPage ptok with
    | Except.error e => some (eff, Except.error e)
    | Except.ok page =>
      let ce := driveChangesItems page.changes changed eff
      let newTok1 := (page.newStartPageToken).getD newTok
      match page.nextPageToken with
      | none => some (ce.2, Except.ok (ce.1, newTok1))
      | some tk => driveChangesLoop srv fuel tk ce.1 newTok1 ce.2

/-- Embeds `sync_drive(db, creds)`. -/
def sync_drive (srv : DriveServer) (fuel : Nat) (now : String) (eff : Eff) :
    Option (Eff × Res) :=
  match cursorOf (get_sync_state eff.db "drive") with
  | none =>
    match drive_full srv fuel eff with
    | none => none
    | some (eff1, Except.error e) => some (eff1, Res.exn e)
    | some (eff1, Except.ok count) =>
      match srv.getStartPageToken with
      | Except.error e => some (eff1, Res.exn e)
      | Except.ok tok =>
        let total := countTblGuard eff1.db "drive_files"
        some (setStateEff eff1 "drive" tok total now, Res.ok count)
  | some t =>
    match driveChangesLoop srv fuel t 0 t eff with
    | none => none
    | some (eff1, Except.error e) => some (eff1, Res.exn e)
    | some (eff1, Except.ok (changed, newTok)) =>
      let total := countTblGuard eff1.db "drive_files"
      some (setStateEff eff1 "drive" (some newTok) total now, Res.ok changed)

/-! ### Photos adapter -/

structure PhotoItem where
  id : String
  filename : String
  mimeType : String
  description : String
  creationTime : String
  width : String
  height : String
  isVideo : Bool
  deriving DecidableEq

/-- A response of `GET /v1/mediaItems`: either a good JSON page, or a non-200
status (which the code logs and then `break`s on). -/
inductive PhotosResp where
  | good (items : List PhotoItem) (nextPageToken : Option String)
  | bad (status : Nat)
  deriving DecidableEq

/-- The Photos API oracle; a raised call is a transport (requests) error. -/
structure PhotosServer where
  page : Option String → Except Exn PhotosResp

def photoNormalize (it : PhotoItem) : String × Rec :=
  (it.id,
    [("item_id", it.id), ("filename", it.filename), ("mime_type", it.mimeType),
     ("description", it.description), ("creation_time", it.creationTime),
     ("width", it.width), ("height", it.height), ("is_video", boolStr it.isVideo)])

/-- The paging loop of `sync_photos`: a non-200 response breaks out of the
loop with the pending items kept; batches flush at 500. -/
def photosLoop (srv : PhotosServer) : Nat → Option String → Tbl → Eff →
    Option (Eff × Except Exn Tbl)
  | 0, _, _, _ => none
  | fuel + 1, ptok, items, eff =>
    match srv.page ptok with
    | Except.error e => some (eff, Except.error e)
    | Except.ok (PhotosResp.bad _) => some (eff, Except.ok items)
    | Except.ok (PhotosResp.good its next) =>
      let items1 := items ++ its.map photoNormalize
      let ie : Tbl × Eff :=
        if items1.length ≥ 500 then ([], upsertAllEff eff "photos_media" items1)
        else (items1, eff)
      match next with
      | none => some (ie.2, Except.ok ie.1)
      | some tk => photosLoop srv fuel (some tk) ie.1 ie.2

/-- Embeds `sync_photos(db, creds)`: no change-tracking primitive — always a full
re-listing, committed with `sync_token=None` and returning the total. -/
def sync_photos (srv : PhotosServer) (fuel : Nat) (now : String) (eff : Eff) :
    Option (Eff × Res) :=
  match photosLoop srv fuel none [] eff with
  | none => none
  | some (eff1, Except.error e) => some (eff1, Res.exn e)
  | some (eff1, Except.ok items) =>
    let eff2 := if items.isEmpty then eff1 else upsertAllEff eff1 "photos_media" items
    let eff3 := ensure_fts eff2 "photos_media" ["filename", "description"]
    let total := countTblGuard eff3.db "photos_media"
    some (setStateEff eff3 "photos" none total now, Res.ok total)

/-! ### Search facade -/

/-- The `tables` dict of `search_cache`. -/
def tablesMap : List (String × String) :=
  [("gmail", "gmail_messages"), ("calendar", "calendar_events"), ("contacts", "contacts"),
   ("drive", "drive_files"), ("photos", "photos_media")]

def ftsColsOf (db : Db) (t : String) : List String :=
  ((db.ftsCols.find? (fun p => p.1 == t)).map (fun p => p.2)).getD []

def fieldOf (r : Rec) (c : String) : String :=
  ((r.find? (fun p => p.1 == c)).map (fun p => p.2)).getD ""

/-- Whether an FTS query matches a row: some indexed column's text contains
the query.  (FTS5 is a derived index kept consistent with the mirror by
`create_triggers=True`; searching it is searching the current rows.) -/
def rowMatches (cols : List String) (q : String) (r : Rec) : Bool :=
  cols.any (fun c => strContains (fieldOf r c) q)

/-- Embeds `db[table].search(query, limit=20)`. -/
def ftsSearchTbl (db : Db) (t : String) (q : String) : Tbl :=
  ((dbGetTbl db t).filter (fun kr => rowMatches (ftsColsOf db t) q kr.2)).take 20

/-- A search hit: the row dict plus the `_service` tag the code adds. -/
structure Hit where
  service : String
  key : String
  row : Rec
  deriving DecidableEq

/-- Embeds `targets = {service: tables[service]} if service and service in tables
else tables`. -/
def searchTargets (service : Option String) : List (String × String) :=
  match service with
  | none => tablesMap
  | some s =>
    if s == "" then tablesMap
    else
      match tablesMap.find? (fun p => p.1 == s) with
      | some p => [p]
      | none => tablesMap

/-- One target's contribution: skipped entirely unless its FTS table exists. -/
def searchOne (db : Db) (q : String) (p : String × String) : List Hit :=
  if dbFtsOn db p.2 then (ftsSearchTbl db p.2 q).map (fun kr => ⟨p.1, kr.1, kr.2⟩)
  else []

/-- Embeds `search_cache(db, query, service)`. -/
def search_cache (db : Db) (q : String) (service : Option String) : List Hit :=
  (searchTargets service).flatMap (searchOne db q)

/-! ### The `sync` command loop -/

structure Servers where
  gmail : GmailServer
  cal : CalServer
  ppl : PplServer
  drive : DriveServer
  photos : PhotosServer

/-- The per-source narrative the loop prints: a success count, the
network-skip line (`Network error, skipping — {type}`), or the generic error
line (`Error — {e}`). -/
inductive Outcome where
  | synced (n : Nat)
  | skippedNet (tyName : String)
  | errored (msg : String)
  deriving DecidableEq

/-- Embeds `sync_map[svc](db, creds)`: dispatch on the service name; an unknown
name is a `KeyError`, raised inside the same `try` block. -/
def runServiceRaw (srvs : Servers) (fuel : Nat) (now : String) (svc : String) (eff : Eff) :
    Option (Eff × Res) :=
  if svc == "gmail" then sync_gmail srvs.gmail fuel now eff
  else if svc == "calendar" then sync_calendar srvs.cal fuel now eff
  else if svc == "contacts" then sync_contacts srvs.ppl fuel now eff
  else if svc == "drive" then sync_drive srvs.drive fuel now eff
  else if svc == "photos" then sync_photos srvs.photos fuel now eff
  else some (eff, Res.exn (Exn.other "KeyError"))

/-- The two `except` clauses of the loop body: `NETWORK_ERRORS` members are
reported as a network skip, any other exception as a generic error line. -/
def outcomeOf : Res → Outcome
  | Res.ok n => Outcome.synced n
  | Res.exn (Exn.net ty _) => Outcome.skippedNet ty
  | Res.exn (Exn.other m) => Outcome.errored m

/-- One iteration of the sync loop: `sync_map[svc](db, creds)` inside
`try/except NETWORK_ERRORS/except Exception`. -/
def runService (srvs : Servers) (fuel : Nat) (now : String) (svc : String) (eff : Eff) :
    Option (Eff × Outcome) :=
  (runServiceRaw srvs fuel now svc eff).map (fun p => (p.1, outcomeOf p.2))

/-- The `for svc in services_to_sync` loop of `main`'s sync command. -/
def mainSyncCore (srvs : Servers) (fuel : Nat) (now : String) :
    List String → Eff → Option (Eff × List (String × Outcome))
  | [], eff => some (eff, [])
  | svc :: rest, eff =>
    match runService srvs fuel now svc eff with
    | none => none
    | some (eff1, o) =>
      match mainSyncCore srvs fuel now rest eff1 with
      | none => none
      | some (eff2, outs) => some (eff2, (svc, o) :: outs)

structure RunOut where
  eff : Eff
  outcomes : List (String × Outcome)
  exitCode : Nat
  deriving DecidableEq

/-- The whole sync command: run every requested source, then
`sys.exit(0)` — exit code 0 even on partial failures. -/
def mainSyncRun (srvs : Servers) (fuel : Nat) (now : String) (svcs : List String)
    (eff : Eff) : Option RunOut :=
  match mainSyncCore srvs fuel now svcs eff with
  | none => none
  | some (eff1, outs) => some ⟨eff1, outs, 0⟩

/-- The default service set of the sync command (Photos is opt-in). -/
def SERVICES : List String := ["gmail", "calendar", "contacts", "drive"]

/-! ### Trace and sync-state preservation machinery -/

/-- A trace fragment containing no sync-state commit. -/
def NoSet (w : List Ev) : Prop := ∀ e ∈ w, ∀ svc, e ≠ Ev.setSt svc

/-- Invariant `Pres a b`: going from `a` to `b`, the `sync_state` table is untouched
and the emitted events contain no sync-state commit. -/
def Pres (a b : Eff) : Prop :=
  b.db.syncState = a.db.syncState ∧ ∃ w, b.tr = w ++ a.tr ∧ NoSet w

theorem noSetNil : NoSet [] := by
  intro e he
  cases he

theorem noSetSingle {e : Ev} (h : ∀ svc, e ≠ Ev.setSt svc) : NoSet [e] := by
  intro x hx svc
  rcases List.mem_singleton.mp hx with rfl
  exact h svc

theorem noSetWr (t : String) : NoSet [Ev.wr t] :=
  noSetSingle (fun _ hc => Ev.noConfusion hc)

theorem noSetDrop (t : String) : NoSet [Ev.dropT t] :=
  noSetSingle (fun _ hc => Ev.noConfusion hc)

theorem noSetFts (t : String) : NoSet [Ev.fts t] :=
  noSetSingle (fun _ hc => Ev.noConfusion hc)

theorem noSetAppend {w1 w2 : List Ev} (h1 : NoSet w1) (h2 : NoSet w2) :
    NoSet (w1 ++ w2) := by
  intro e he svc
  rcases List.mem_append.mp he with h | h
  · exact h1 e h svc
  · exact h2 e h svc

theorem presRefl (a : Eff) : Pres a a := ⟨rfl, [], rfl, noSetNil⟩

theorem presTrans {a b c : Eff} (h1 : Pres a b) (h2 : Pres b c) : Pres a c := by
  obtain ⟨hs1, w1, ht1, hn1⟩ := h1
  obtain ⟨hs2, w2, ht2, hn2⟩ := h2
  refine ⟨hs2.trans hs1, w2 ++ w1, ?_, noSetAppend hn2 hn1⟩
  rw [ht2, ht1, List.append_assoc]

theorem presUpsertAllEff (eff : Eff) (t : String) (b : Tbl) :
    Pres eff (upsertAllEff eff t b) :=
  ⟨rfl, [Ev.wr t], rfl, noSetWr t⟩

theorem presDeleteRowEff (eff : Eff) (t k : String) :
    Pres eff (deleteRowEff eff t k) := by
  refine ⟨?_, [Ev.wr t], rfl, noSetWr t⟩
  show (dbDeleteRow eff.db t k).syncState = eff.db.syncState
  unfold dbDeleteRow
  split <;> rfl

theorem presDropTblEff (eff : Eff) (t : String) : Pres eff (dropTblEff eff t) :=
  ⟨rfl, [Ev.dropT t], rfl, noSetDrop t⟩

theorem presDropTblIfEff (eff : Eff) (t : String) : Pres eff (dropTblIfEff eff t) := by
  unfold dropTblIfEff
  split
  · exact presDropTblEff eff t
  · exact presRefl eff

theorem presEnsureFts (eff : Eff) (t : String) (cols : List String) :
    Pres eff (ensure_fts eff t cols) := by
  unfold ensure_fts
  split
  · exact presRefl eff
  · split
    · exact ⟨rfl, [Ev.fts t], rfl, noSetFts t⟩
    · exact presRefl eff

theorem presIfUpsert (eff : Eff) (t : String) (c : Bool) (b : Tbl) :
    Pres eff (if c then eff else upsertAllEff eff t b) := by
  split
  · exact presRefl eff
  · exact presUpsertAllEff eff t b

theorem presFoldl {β : Type} (f : Eff → β → Eff) (hf : ∀ eff x, Pres eff (f eff x)) :
    ∀ (l : List β) (eff : Eff), Pres eff (l.foldl f eff) := by
  intro l
  induction l with
  | nil => intro eff; exact presRefl eff
  | cons x rest ih =>
    intro eff
    exact presTrans (hf eff x) (ih (f eff x))

/-- The commit-ordering property: the final event of the run is the
sync-state commit for `svc`, and no other sync-state commit was emitted —
i.e. every mirror-table write of the run precedes the cursor commit. -/
def CommitLast (a b : Eff) (svc : String) : Prop :=
  ∃ w, b.tr = Ev.setSt svc :: (w ++ a.tr) ∧ NoSet w

/-- The common result shape of every adapter: either it raised, leaving the
sync state untouched, or it succeeded and its final act was the
`set_sync_state` commit for its own service. -/
def AdShape (svc now : String) (a b : Eff) (r : Res) : Prop :=
  (∃ e, r = Res.exn e ∧ Pres a b) ∨
  (∃ n eff2 tok cnt, r = Res.ok n ∧ Pres a eff2 ∧ b = setStateEff eff2 svc tok cnt now)

theorem adShapePres {svc now : String} {a b c : Eff} {r : Res}
    (h1 : Pres a b) (h2 : AdShape svc now b c r) : AdShape svc now a c r := by
  rcases h2 with ⟨e, he, hp⟩ | ⟨n, eff2, tok, cnt, hr, hp, hb⟩
  · exact Or.inl ⟨e, he, presTrans h1 hp⟩
  · exact Or.inr ⟨n, eff2, tok, cnt, hr, presTrans h1 hp, hb⟩

theorem adShapeOfSet {svc now : String} {a eff2 : Eff} {n : Nat} {tok : Option String}
    {cnt : Nat} (hp : Pres a eff2) :
    AdShape svc now a (setStateEff eff2 svc tok cnt now) (Res.ok n) :=
  Or.inr ⟨n, eff2, tok, cnt, rfl, hp, rfl⟩

theorem adShapeOfExn {svc now : String} {a b : Eff} {e : Exn}
    (hp : Pres a b) : AdShape svc now a b (Res.exn e) :=
  Or.inl ⟨e, rfl, hp⟩

theorem adShapeCommitLast {svc now : String} {a b : Eff} {r : Res} {n : Nat}
    (h : AdShape svc now a b r) (hr : r = Res.ok n) : CommitLast a b svc := by
  rcases h with ⟨e, he, _⟩ | ⟨m, eff2, tok, cnt, _, hp, hb⟩
  · rw [hr] at he; cases he
  · obtain ⟨_, w, ht, hn⟩ := hp
    refine ⟨w, ?_, hn⟩
    rw [hb]
    show Ev.setSt svc :: eff2.tr = Ev.setSt svc :: (w ++ a.tr)
    rw [ht]

theorem adShapeExnState {svc now : String} {a b : Eff} {r : Res} {e : Exn}
    (h : AdShape svc now a b r) (hr : r = Res.exn e) :
    b.db.syncState = a.db.syncState := by
  rcases h with ⟨e2, _, hp, _⟩ | ⟨m, eff2, tok, cnt, ho, _, _⟩
  · exact hp
  · rw [hr] at ho; cases ho

theorem adShapeOtherRows {svc now : String} {a b : Eff} {r : Res}
    (h : AdShape svc now a b r) (s : String) (hs : s ≠ svc) :
    tblGet b.db.syncState s = tblGet a.db.syncState s := by
  rcases h with ⟨e, _, hp, _⟩ | ⟨m, eff2, tok, cnt, _, hp, hb⟩
  · rw [hp]
  · rw [hb]
    show tblGet (set_sync_state eff2.db svc tok cnt now).syncState s = _
    unfold set_sync_state
    rw [tblGet_upsertOne_other _ _ _ _ hs, hp.1]

theorem adShapeOkRow {svc now : String} {a b : Eff} {r : Res} {n : Nat}
    (h : AdShape svc now a b r) (hr : r = Res.ok n) :
    ∃ tok cnt, tblGet b.db.syncState svc = some ⟨svc, some tok, some now, cnt⟩ := by
  rcases h with ⟨e, he, _⟩ | ⟨m, eff2, tok, cnt, _, _, hb⟩
  · rw [hr] at he; cases he
  · refine ⟨tok.getD "", cnt, ?_⟩
    rw [hb]
    show tblGet (set_sync_state eff2.db svc tok cnt now).syncState svc = _
    unfold set_sync_state
    rw [tblGet_upsertOne_self]

/-! ### Gmail adapter lemmas -/

theorem presGmailStubs (srv : GmailServer) :
    ∀ (ids : List String) (pending : Tbl) (eff : Eff),
      Pres eff (gmailStubsLoop srv ids pending eff).2 := by
  intro ids
  induction ids with
  | nil => intro pending eff; exact presRefl eff
  | cons i rest ih =>
    intro pending eff
    show Pres eff (gmailStubsLoop srv (i :: rest) pending eff).2
    unfold gmailStubsLoop
    cases hm : srv.getMsg i with
    | error e => exact ih pending eff
    | ok m =>
      dsimp only
      split
      · exact presTrans (presUpsertAllEff eff "gmail_messages" _)
          (ih [] (upsertAllEff eff "gmail_messages" _))
      · exact ih _ eff

theorem presGmailFullLoop (srv : GmailServer) :
    ∀ (fuel : Nat) (ptok : Option String) (pending : Tbl) (eff eff' : Eff)
      (r : Except Exn Unit),
      gmailFullLoop srv fuel ptok pending eff = some (eff', r) → Pres eff eff' := by
  intro fuel
  induction fuel with
  | zero => intro ptok pending eff eff' r h; cases h
  | succ fuel ih =>
    intro ptok pending eff eff' r h
    unfold gmailFullLoop at h
    cases hl : srv.listPage ptok with
    | error e =>
      rw [hl] at h
      injection h with h
      injection h with h1 h2
      rw [← h1]
      exact presRefl eff
    | ok pr =>
      obtain ⟨ids, next⟩ := pr
      rw [hl] at h
      dsimp only at h
      cases next with
      | none =>
        injection h with h
        injection h with h1 h2
        rw [← h1]
        refine presTrans (presGmailStubs srv ids pending eff) ?_
        split
        · exact presRefl _
        · exact presUpsertAllEff _ "gmail_messages" _
      | some tk =>
        exact presTrans (presGmailStubs srv ids pending eff) (ih (some tk) _ _ eff' r h)

theorem presGmailFull (srv : GmailServer) (fuel : Nat) (eff eff' : Eff)
    (r : Except Exn Nat) (h : gmail_full srv fuel eff = some (eff', r)) :
    Pres eff eff' := by
  unfold gmail_full at h
  cases hl : gmailFullLoop srv fuel none [] eff with
  | none => rw [hl] at h; cases h
  | some p =>
    obtain ⟨eff1, r1⟩ := p
    rw [hl] at h
    cases r1 with
    | error e =>
      injection h with h
      injection h with h1 h2
      rw [← h1]
      exact presGmailFullLoop srv fuel none [] eff eff1 _ hl
    | ok u =>
      dsimp only at h
      have hp1 : Pres eff eff1 := presGmailFullLoop srv fuel none [] eff eff1 _ hl
      have hp2 : Pres eff1 (ensure_fts eff1 "gmail_messages"
          ["subject", "sender", "recipients", "snippet"]) :=
        presEnsureFts eff1 _ _
      cases hc : countTblStrict (ensure_fts eff1 "gmail_messages"
          ["subject", "sender", "recipients", "snippet"]).db "gmail_messages" with
      | error e =>
        rw [hc] at h
        injection h with h
        injection h with h1 h2
        rw [← h1]
        exact presTrans hp1 hp2
      | ok n =>
        rw [hc] at h
        injection h with h
        injection h with h1 h2
        rw [← h1]
        exact presTrans hp1 hp2

theorem presGmailHistLoop (srv : GmailServer) :
    ∀ (fuel : Nat) (hid : String) (ptok : Option String) (changed : List String)
      (eff eff' : Eff) (r : Except Exn (List String)),
      gmailHistLoop srv fuel hid ptok changed eff = some (eff', r) → Pres eff eff' := by
  intro fuel
  induction fuel with
  | zero => intro hid ptok changed eff eff' r h; cases h
  | succ fuel ih =>
    intro hid ptok changed eff eff' r h
    unfold gmailHistLoop at h
    cases hl : srv.histPage hid ptok with
    | error e =>
      rw [hl] at h
      injection h with h
      injection h with h1 h2
      rw [← h1]
      exact presRefl eff
    | ok page =>
      rw [hl] at h
      dsimp only at h
      have hdel : Pres eff (page.deleted.foldl
          (fun ef i => deleteRowEff ef "gmail_messages" i) eff) :=
        presFoldl _ (fun e x => presDeleteRowEff e "gmail_messages" x) page.deleted eff
      cases hn : page.nextPageToken with
      | none =>
        rw [hn] at h
        injection h with h
        injection h with h1 h2
        rw [← h1]
        exact hdel
      | some tk =>
        rw [hn] at h
        exact presTrans hdel (ih hid (some tk) _ _ eff' r h)

theorem presGmailIncremental (srv : GmailServer) (fuel : Nat) (hid : String)
    (eff eff' : Eff) (r : Except Exn Nat)
    (h : gmail_incremental srv fuel hid eff = some (eff', r)) : Pres eff eff' := by
  unfold gmail_incremental at h
  cases hl : gmailHistLoop srv fuel hid none [] eff with
  | none => rw [hl] at h; cases h
  | some p =>
    obtain ⟨eff1, r1⟩ := p
    rw [hl] at h
    have hp1 : Pres eff eff1 := presGmailHistLoop srv fuel hid none [] eff eff1 _ hl
    cases r1 with
    | error e =>
      injection h with h
      injection h with h1 h2
      rw [← h1]
      exact hp1
    | ok changed =>
      dsimp only at h
      injection h with h
      injection h with h1 h2
      rw [← h1]
      refine presTrans hp1 ?_
      split
      · exact presRefl _
      · exact presUpsertAllEff _ "gmail_messages" _

theorem presGmailIngest (srv : GmailServer) (fuel : Nat) (hid : Option String)
    (eff eff' : Eff) (r : Except Exn Nat)
    (h : gmailIngest srv fuel hid eff = some (eff', r)) : Pres eff eff' := by
  unfold gmailIngest at h
  cases hid with
  | none => exact presGmailFull srv fuel eff eff' r h
  | some hd =>
    dsimp only at h
    cases hl : gmail_incremental srv fuel hd eff with
    | none => rw [hl] at h; cases h
    | some p =>
      obtain ⟨eff1, r1⟩ := p
      rw [hl] at h
      have hp1 : Pres eff eff1 := presGmailIncremental srv fuel hd eff eff1 _ hl
      cases r1 with
      | ok c =>
        injection h with h
        injection h with h1 h2
        rw [← h1]
        exact hp1
      | error e =>
        exact presTrans hp1 (presGmailFull srv fuel eff1 eff' r h)

theorem sync_gmail_shape (srv : GmailServer) (fuel : Nat) (now : String)
    (eff eff' : Eff) (r : Res) (h : sync_gmail srv fuel now eff = some (eff', r)) :
    AdShape "gmail" now eff eff' r := by
  unfold sync_gmail at h
  cases hi : gmailIngest srv fuel (cursorOf (get_sync_state eff.db "gmail")) eff with
  | none => rw [hi] at h; cases h
  | some p =>
    obtain ⟨eff1, r1⟩ := p
    rw [hi] at h
    have hp1 : Pres eff eff1 := presGmailIngest srv fuel _ eff eff1 _ hi
    cases r1 with
    | error e =>
      injection h with h
      injection h with h1 h2
      rw [← h1, ← h2]
      exact adShapeOfExn hp1
    | ok count =>
      dsimp only at h
      cases hpr : srv.profile with
      | error e =>
        rw [hpr] at h
        injection h with h
        injection h with h1 h2
        rw [← h1, ← h2]
        exact adShapeOfExn hp1
      | ok newHid =>
        rw [hpr] at h
        injection h with h
        injection h with h1 h2
        rw [← h1, ← h2]
        exact adShapeOfSet hp1

/-! ### Calendar adapter lemmas -/

theorem presCalItems :
    ∀ (items : List CalEvent) (acc : Tbl) (eff : Eff),
      Pres eff (calItemsLoop items acc eff).2 := by
  intro items
  induction items with
  | nil => intro acc eff; exact presRefl eff
  | cons ev rest ih =>
    intro acc eff
    show Pres eff (calItemsLoop (ev :: rest) acc eff).2
    unfold calItemsLoop
    split
    · exact presTrans (presDeleteRowEff eff "calendar_events" ev.id) (ih acc _)
    · exact ih _ eff

theorem presCalListLoop (srv : CalServer) :
    ∀ (fuel : Nat) (syncTok timeMin ptok : Option String) (acc : Tbl) (eff eff' : Eff)
      (r : Except Exn (Tbl × Option String)),
      calListLoop srv fuel syncTok timeMin ptok acc eff = some (eff', r) →
      Pres eff eff' := by
  intro fuel
  induction fuel with
  | zero => intro syncTok timeMin ptok acc eff eff' r h; cases h
  | succ fuel ih =>
    intro syncTok timeMin ptok acc eff eff' r h
    unfold calListLoop at h
    cases hl : srv.listPage syncTok timeMin ptok with
    | error e =>
      rw [hl] at h
      injection h with h
      injection h with h1 h2
      rw [← h1]
      exact presRefl eff
    | ok page =>
      rw [hl] at h
      dsimp only at h
      have hit : Pres eff (calItemsLoop page.items acc eff).2 :=
        presCalItems page.items acc eff
      cases hn : page.nextPageToken with
      | none =>
        rw [hn] at h
        injection h with h
        injection h with h1 h2
        rw [← h1]
        exact hit
      | some tk =>
        rw [hn] at h
        exact presTrans hit (ih syncTok timeMin (some tk) _ _ eff' r h)

theorem sync_calendar_shape (srv : CalServer) (now : String) :
    ∀ (fuel : Nat) (eff eff' : Eff) (r : Res),
      sync_calendar srv fuel now eff = some (eff', r) →
      AdShape "calendar" now eff eff' r := by
  intro fuel
  induction fuel with
  | zero => intro eff eff' r h; cases h
  | succ fuel ih =>
    intro eff eff' r h
    unfold sync_calendar at h
    dsimp only at h
    cases hl : calListLoop srv (fuel + 1)
        (calBase (cursorOf (get_sync_state eff.db "calendar"))).1
        (calBase (cursorOf (get_sync_state eff.db "calendar"))).2 none [] eff with
    | none => rw [hl] at h; cases h
    | some p =>
      obtain ⟨eff1, r1⟩ := p
      rw [hl] at h
      have hp1 : Pres eff eff1 := presCalListLoop srv (fuel + 1) _ _ none [] eff eff1 _ hl
      cases r1 with
      | error e =>
        dsimp only at h
        split at h
        · exact adShapePres (presTrans hp1 (presDropTblIfEff eff1 "calendar_events"))
            (ih _ eff' r h)
        · injection h with h
          injection h with h1 h2
          rw [← h1, ← h2]
          exact adShapeOfExn hp1
      | ok pr =>
        obtain ⟨events, newTok⟩ := pr
        dsimp only at h
        injection h with h
        injection h with h1 h2
        rw [← h1, ← h2]
        refine adShapeOfSet (presTrans hp1 (presTrans ?_ (presEnsureFts _ _ _)))
        split
        · exact presRefl _
        · exact presUpsertAllEff _ "calendar_events" _

/-! ### Contacts adapter lemmas -/

theorem presPplItems :
    ∀ (ps : List Person) (acc : Tbl) (eff : Eff),
      Pres eff (pplItemsLoop ps acc eff).2 := by
  intro ps
  induction ps with
  | nil => intro acc eff; exact presRefl eff
  | cons p rest ih =>
    intro acc eff
    show Pres eff (pplItemsLoop (p :: rest) acc eff).2
    unfold pplItemsLoop
    split
    · split
      · exact ih acc eff
      · exact presTrans (presDeleteRowEff eff "contacts" p.resourceName) (ih acc _)
    · exact ih _ eff

theorem presPplListLoop (srv : PplServer) :
    ∀ (fuel : Nat) (syncTok ptok : Option String) (acc : Tbl) (eff eff' : Eff)
      (r : Except Exn (Tbl × Option String)),
      pplListLoop srv fuel syncTok ptok acc eff = some (eff', r) → Pres eff eff' := by
  intro fuel
  induction fuel with
  | zero => intro syncTok ptok acc eff eff' r h; cases h
  | succ fuel ih =>
    intro syncTok ptok acc eff eff' r h
    unfold pplListLoop at h
    dsimp only at h
    cases hl : srv.listPage (pplReq syncTok ptok).1 (pplReq syncTok ptok).2.1
        (pplReq syncTok ptok).2.2 with
    | error e =>
      rw [hl] at h
      injection h with h
      injection h with h1 h2
      rw [← h1]
      exact presRefl eff
    | ok page =>
      rw [hl] at h
      dsimp only at h
      have hit : Pres eff (pplItemsLoop page.connections acc eff).2 :=
        presPplItems page.connections acc eff
      cases hn : page.nextPageToken with
      | none =>
        rw [hn] at h
        injection h with h
        injection h with h1 h2
        rw [← h1]
        exact hit
      | some tk =>
        rw [hn] at h
        exact presTrans hit (ih syncTok (some tk) _ _ eff' r h)

theorem sync_contacts_shape (srv : PplServer) (now : String) :
    ∀ (fuel : Nat) (eff eff' : Eff) (r : Res),
      sync_contacts srv fuel now eff = some (eff', r) →
      AdShape "contacts" now eff eff' r := by
  intro fuel
  induction fuel with
  | zero => intro eff eff' r h; cases h
  | succ fuel ih =>
    intro eff eff' r h
    unfold sync_contacts at h
    dsimp only at h
    cases hl : pplListLoop srv (fuel + 1)
        (cursorOf (get_sync_state eff.db "contacts")) none [] eff with
    | none => rw [hl] at h; cases h
    | some p =>
      obtain ⟨eff1, r1⟩ := p
      rw [hl] at h
      have hp1 : Pres eff eff1 := presPplListLoop srv (fuel + 1) _ none [] eff eff1 _ hl
      cases r1 with
      | error e =>
        dsimp only at h
        split at h
        · exact adShapePres (presTrans hp1 (presDropTblIfEff eff1 "contacts"))
            (ih _ eff' r h)
        · injection h with h
          injection h with h1 h2
          rw [← h1, ← h2]
          exact adShapeOfExn hp1
      | ok pr =>
        obtain ⟨contacts, newTok⟩ := pr
        dsimp only at h
        injection h with h
        injection h with h1 h2
        rw [← h1, ← h2]
        refine adShapeOfSet (presTrans hp1 (presTrans ?_ (presEnsureFts _ _ _)))
        split
        · exact presRefl _
        · exact presUpsertAllEff _ "contacts" _

/-! ### Drive adapter lemmas -/

theorem presDriveFullLoop (srv : DriveServer) :
    ∀ (fuel : Nat) (ptok : Option String) (files : Tbl) (eff eff' : Eff)
      (r : Except Exn Unit),
      driveFullLoop srv fuel ptok files eff = some (eff', r) → Pres eff eff' := by
  intro fuel
  induction fuel with
  | zero => intro ptok files eff eff' r h; cases h
  | succ fuel ih =>
    intro ptok files eff eff' r h
    unfold driveFullLoop at h
    cases hl : srv.listPage ptok with
    | error e =>
      rw [hl] at h
      injection h with h
      injection h with h1 h2
      rw [← h1]
      exact presRefl eff
    | ok pr =>
      obtain ⟨page, next⟩ := pr
      rw [hl] at h
      dsimp only at h
      have hfe : Pres eff (if (files ++ page.map driveNormalize).length ≥ 500 then
          (([] : Tbl), upsertAllEff eff "drive_files" (files ++ page.map driveNormalize))
          else (files ++ page.map driveNormalize, eff)).2 := by
        split
        · exact presUpsertAllEff eff "drive_files" _
        · exact presRefl eff
      cases next with
      | none =>
        injection h with h
        injection h with h1 h2
        rw [← h1]
        exact presTrans hfe (presIfUpsert _ "drive_files" _ _)
      | some tk =>
        exact presTrans hfe (ih (some tk) _ _ eff' r h)

theorem presDriveFull (srv : DriveServer) (fuel : Nat) (eff eff' : Eff)
    (r : Except Exn Nat) (h : drive_full srv fuel eff = some (eff', r)) :
    Pres eff eff' := by
  unfold drive_full at h
  cases hl : driveFullLoop srv fuel none [] eff with
  | none => rw [hl] at h; cases h
  | some p =>
    obtain ⟨eff1, r1⟩ := p
    rw [hl] at h
    have hp1 : Pres eff eff1 := presDriveFullLoop srv fuel none [] eff eff1 _ hl
    cases r1 with
    | error e =>
      injection h with h
      injection h with h1 h2
      rw [← h1]
      exact hp1
    | ok u =>
      dsimp only at h
      have hp2 : Pres eff1 (ensure_fts eff1 "drive_files" ["name", "owner"]) :=
        presEnsureFts eff1 _ _
      cases hc : countTblStrict (ensure_fts eff1 "drive_files" ["name", "owner"]).db
          "drive_files" with
      | error e =>
        rw [hc] at h
        injection h with h
        injection h with h1 h2
        rw [← h1]
        exact presTrans hp1 hp2
      | ok n =>
        rw [hc] at h
        injection h with h
        injection h with h1 h2
        rw [← h1]
        exact presTrans hp1 hp2

theorem presDriveChangesItems :
    ∀ (cs : List DriveChange) (changed : Nat) (eff : Eff),
      Pres eff (driveChangesItems cs changed eff).2 := by
  intro cs
  induction cs with
  | nil => intro changed eff; exact presRefl eff
  | cons c rest ih =>
    intro changed eff
    show Pres eff (driveChangesItems (c :: rest) changed eff).2
    unfold driveChangesItems
    split
    · exact presTrans (presDeleteRowEff eff "drive_files" c.fileId) (ih _ _)
    · cases c.file with
      | none => exact ih _ eff
      | some f => exact presTrans (presUpsertAllEff eff "drive_files" _) (ih _ _)

theorem presDriveChangesLoop (srv : DriveServer) :
    ∀ (fuel : Nat) (ptok : String) (changed : Nat) (newTok : String) (eff eff' : Eff)
      (r : Except Exn (Nat × String)),
      driveChangesLoop srv fuel ptok changed newTok eff = some (eff', r) →
      Pres eff eff' := by
  intro fuel
  induction fuel with
  | zero => intro ptok changed newTok eff eff' r h; cases h
  | succ fuel ih =>
    intro ptok changed newTok eff eff' r h
    unfold driveChangesLoop at h
    cases hl : srv.changesPage ptok with
    | error e =>
      rw [hl] at h
      injection h with h
      injection h with h1 h2
      rw [← h1]
      exact presRefl eff
    | ok page =>
      rw [hl] at h
      dsimp only at h
      have hit : Pres eff (driveChangesItems page.changes changed eff).2 :=
        presDriveChangesItems page.changes changed eff
      cases hn : page.nextPageToken with
      | none =>
        rw [hn] at h
        injection h with h
        injection h with h1 h2
        rw [← h1]
        exact hit
      | some tk =>
        rw [hn] at h
        exact presTrans hit (ih tk _ _ _ eff' r h)

theorem sync_drive_shape (srv : DriveServer) (fuel : Nat) (now : String)
    (eff eff' : Eff) (r : Res) (h : sync_drive srv fuel now eff = some (eff', r)) :
    AdShape "drive" now eff eff' r := by
  unfold sync_drive at h
  cases hcur : cursorOf (get_sync_state eff.db "drive") with
  | none =>
    rw [hcur] at h
    dsimp only at h
    cases hf : drive_full srv fuel eff with
    | none => rw [hf] at h; cases h
    | some p =>
      obtain ⟨eff1, r1⟩ := p
      rw [hf] at h
      have hp1 : Pres eff eff1 := presDriveFull srv fuel eff eff1 _ hf
      cases r1 with
      | error e =>
        injection h with h
        injection h with h1 h2
        rw [← h1, ← h2]
        exact adShapeOfExn hp1
      | ok count =>
        dsimp only at h
        cases ht : srv.getStartPageToken with
        | error e =>
          rw [ht] at h
          injection h with h
          injection h with h1 h2
          rw [← h1, ← h2]
          exact adShapeOfExn hp1
        | ok tok =>
          rw [ht] at h
          injection h with h
          injection h with h1 h2
          rw [← h1, ← h2]
          exact adShapeOfSet hp1
  | some t =>
    rw [hcur] at h
    dsimp only at h
    cases hc : driveChangesLoop srv fuel t 0 t eff with
    | none => rw [hc] at h; cases h
    | some p =>
      obtain ⟨eff1, r1⟩ := p
      rw [hc] at h
      have hp1 : Pres eff eff1 := presDriveChangesLoop srv fuel t 0 t eff eff1 _ hc
      cases r1 with
      | error e =>
        injection h with h
        injection h with h1 h2
        rw [← h1, ← h2]
        exact adShapeOfExn hp1
      | ok pr =>
        obtain ⟨changed, newTok⟩ := pr
        dsimp only at h
        injection h with h
        injection h with h1 h2
        rw [← h1, ← h2]
        exact adShapeOfSet hp1

/-! ### Photos adapter lemmas -/

theorem presPhotosLoop (srv : PhotosServer) :
    ∀ (fuel : Nat) (ptok : Option String) (items : Tbl) (eff eff' : Eff)
      (r : Except Exn Tbl),
      photosLoop srv fuel ptok items eff = some (eff', r) → Pres eff eff' := by
  intro fuel
  induction fuel with
  | zero => intro ptok items eff eff' r h; cases h
  | succ fuel ih =>
    intro ptok items eff eff' r h
    unfold photosLoop at h
    cases hl : srv.page ptok with
    | error e =>
      rw [hl] at h
      injection h with h
      injection h with h1 h2
      rw [← h1]
      exact presRefl eff
    | ok resp =>
      rw [hl] at h
      cases resp with
      | bad st =>
        injection h with h
        injection h with h1 h2
        rw [← h1]
        exact presRefl eff
      | good its next =>
        dsimp only at h
        have hie : Pres eff (if (items ++ its.map photoNormalize).length ≥ 500 then
            (([] : Tbl), upsertAllEff eff "photos_media" (items ++ its.map photoNormalize))
            else (items ++ its.map photoNormalize, eff)).2 := by
          split
          · exact presUpsertAllEff eff "photos_media" _
          · exact presRefl eff
        cases next with
        | none =>
          injection h with h
          injection h with h1 h2
          rw [← h1]
          exact hie
        | some tk =>
          exact presTrans hie (ih (some tk) _ _ eff' r h)

theorem sync_photos_shape (srv : PhotosServer) (fuel : Nat) (now : String)
    (eff eff' : Eff) (r : Res) (h : sync_photos srv fuel now eff = some (eff', r)) :
    AdShape "photos" now eff eff' r := by
  unfold sync_photos at h
  cases hl : photosLoop srv fuel none [] eff with
  | none => rw [hl] at h; cases h
  | some p =>
    obtain ⟨eff1, r1⟩ := p
    rw [hl] at h
    have hp1 : Pres eff eff1 := presPhotosLoop srv fuel none [] eff eff1 _ hl
    cases r1 with
    | error e =>
      injection h with h
      injection h with h1 h2
      rw [← h1, ← h2]
      exact adShapeOfExn hp1
    | ok items =>
      dsimp only at h
      injection h with h
      injection h with h1 h2
      rw [← h1, ← h2]
      refine adShapeOfSet (presTrans hp1 (presTrans ?_ (presEnsureFts _ _ _)))
      split
      · exact presRefl _
      · exact presUpsertAllEff _ "photos_media" _

/-! ### Sync-loop lemmas -/

theorem runServiceRaw_shape (srvs : Servers) (fuel : Nat) (now : String) (svc : String)
    (eff eff' : Eff) (r : Res)
    (h : runServiceRaw srvs fuel now svc eff = some (eff', r)) :
    AdShape svc now eff eff' r := by
  unfold runServiceRaw at h
  by_cases h1 : svc = "gmail"
  · rw [if_pos (by simp [h1])] at h
    rw [h1]
    exact sync_gmail_shape _ _ _ _ _ _ h
  · rw [if_neg (by simp [h1])] at h
    by_cases h2 : svc = "calendar"
    · rw [if_pos (by simp [h2])] at h
      rw [h2]
      exact sync_calendar_shape _ _ _ _ _ _ h
    · rw [if_neg (by simp [h2])] at h
      by_cases h3 : svc = "contacts"
      · rw [if_pos (by simp [h3])] at h
        rw [h3]
        exact sync_contacts_shape _ _ _ _ _ _ h
      · rw [if_neg (by simp [h3])] at h
        by_cases h4 : svc = "drive"
        · rw [if_pos (by simp [h4])] at h
          rw [h4]
          exact sync_drive_shape _ _ _ _ _ _ h
        · rw [if_neg (by simp [h4])] at h
          by_cases h5 : svc = "photos"
          · rw [if_pos (by simp [h5])] at h
            rw [h5]
            exact sync_photos_shape _ _ _ _ _ _ h
          · rw [if_neg (by simp [h5])] at h
            injection h with h
            injection h with ha hb
            rw [← ha, ← hb]
            exact adShapeOfExn (presRefl eff)

theorem runService_decomp (srvs : Servers) (fuel : Nat) (now : String) (svc : String)
    (eff eff' : Eff) (o : Outcome)
    (h : runService srvs fuel now svc eff = some (eff', o)) :
    ∃ r, runServiceRaw srvs fuel now svc eff = some (eff', r) ∧ o = outcomeOf r := by
  unfold runService at h
  cases hr : runServiceRaw srvs fuel now svc eff with
  | none => rw [hr] at h; cases h
  | some p =>
    obtain ⟨e1, r1⟩ := p
    rw [hr] at h
    dsimp only [Option.map] at h
    injection h with h
    injection h with h1 h2
    refine ⟨r1, ?_, h2.symm⟩
    rw [h1]

theorem outcomeOf_not_synced {r : Res} (h : ∀ n, outcomeOf r ≠ Outcome.synced n) :
    ∃ e, r = Res.exn e := by
  cases r with
  | ok n => exact absurd rfl (h n)
  | exn e => exact ⟨e, rfl⟩

theorem res_of_skippedNet {r : Res} {ty : String}
    (h : outcomeOf r = Outcome.skippedNet ty) : ∃ m, r = Res.exn (Exn.net ty m) := by
  cases r with
  | ok n => cases h
  | exn e =>
    cases e with
    | net t m =>
      have h2 : Outcome.skippedNet t = Outcome.skippedNet ty := h
      injection h2 with h3
      exact ⟨m, by rw [h3]⟩
    | other m => cases h

theorem res_of_errored {r : Res} {msg : String}
    (h : outcomeOf r = Outcome.errored msg) : r = Res.exn (Exn.other msg) := by
  cases r with
  | ok n => cases h
  | exn e =>
    cases e with
    | net t m => cases h
    | other m =>
      have h2 : Outcome.errored m = Outcome.errored msg := h
      injection h2 with h3
      rw [h3]

theorem runService_fail_state (srvs : Servers) (fuel : Nat) (now : String) (svc : String)
    (eff effA : Eff) (o : Outcome)
    (h : runService srvs fuel now svc eff = some (effA, o))
    (ho : ∀ n, o ≠ Outcome.synced n) :
    effA.db.syncState = eff.db.syncState := by
  obtain ⟨r, hraw, hout⟩ := runService_decomp srvs fuel now svc eff effA o h
  obtain ⟨e, he⟩ := outcomeOf_not_synced (fun n => by rw [← hout]; exact ho n)
  exact adShapeExnState (runServiceRaw_shape srvs fuel now svc eff effA r hraw) he

theorem mainSyncCore_cons (srvs : Servers) (fuel : Nat) (now : String) (svc : String)
    (rest : List String) (eff effA : Eff) (o : Outcome)
    (h1 : runService srvs fuel now svc eff = some (effA, o)) :
    mainSyncCore srvs fuel now (svc :: rest) eff =
      match mainSyncCore srvs fuel now rest effA with
      | none => none
      | some (eff2, outs) => some (eff2, (svc, o) :: outs) := by
  simp only [mainSyncCore, h1]

theorem mainSyncCore_frame (srvs : Servers) (fuel : Nat) (now : String) :
    ∀ (svcs : List String) (eff eff1 : Eff) (outs : List (String × Outcome)),
      mainSyncCore srvs fuel now svcs eff = some (eff1, outs) →
      ∀ s, s ∉ svcs → tblGet eff1.db.syncState s = tblGet eff.db.syncState s := by
  intro svcs
  induction svcs with
  | nil =>
    intro eff eff1 outs h s hs
    injection h with h
    injection h with h1 h2
    rw [← h1]
  | cons svc rest ih =>
    intro eff eff1 outs h s hs
    unfold mainSyncCore at h
    cases hr : runService srvs fuel now svc eff with
    | none => rw [hr] at h; cases h
    | some p =>
      obtain ⟨effA, o⟩ := p
      rw [hr] at h
      dsimp only at h
      cases hm : mainSyncCore srvs fuel now rest effA with
      | none => rw [hm] at h; cases h
      | some q =>
        obtain ⟨eff2, outs2⟩ := q
        rw [hm] at h
        injection h with h
        injection h with h1 h2
        rw [← h1]
        have hs1 : s ∉ rest := fun hc => hs (List.mem_cons_of_mem _ hc)
        have hs2 : s ≠ svc := fun hc => hs (hc ▸ List.mem_cons_self _ _)
        obtain ⟨r, hraw, _⟩ := runService_decomp srvs fuel now svc eff effA o hr
        have hshape := runServiceRaw_shape srvs fuel now svc eff effA r hraw
        rw [ih effA eff2 outs2 hm s hs1]
        exact adShapeOtherRows hshape s hs2

/-! ### Mirror-table helper lemmas -/

/-- Lookup a row of a named mirror table. -/
def tblGetDb (db : Db) (t k : String) : Option Rec := tblGet (dbGetTbl db t) k

theorem tblGet_none_of_hasKey_false {α : Type} {t : List (String × α)} {k : String}
    (h : hasKey t k = false) : tblGet t k = none := by
  unfold tblGet
  rw [List.find?_eq_none.mpr]
  · rfl
  · intro x hx hc
    have h2 : t.any (fun r => r.1 == k) = true := List.any_eq_true.mpr ⟨x, hx, hc⟩
    rw [hasKey, h2] at h
    cases h

theorem tblGet_deleteKey_self {α : Type} : ∀ (t : List (String × α)) (k : String),
    tblGet (deleteKey t k) k = none := by
  intro t
  induction t with
  | nil => intro k; rfl
  | cons r rest ih =>
    intro k
    unfold deleteKey
    rw [List.filter_cons]
    cases hr : (r.1 == k) with
    | true =>
      rw [if_neg (by simp [hr])]
      exact ih k
    | false =>
      rw [if_pos (by simp [hr])]
      rw [tblGet_cons, if_neg (by simp [hr])]
      exact ih k

theorem tblGet_deleteKey_of_none {α : Type} : ∀ (t : List (String × α)) (k k' : String),
    tblGet t k = none → tblGet (deleteKey t k') k = none := by
  intro t
  induction t with
  | nil => intro k k' _; rfl
  | cons r rest ih =>
    intro k k' h
    rw [tblGet_cons] at h
    cases hr : (r.1 == k) with
    | true => rw [if_pos (by rw [hr])] at h; cases h
    | false =>
      rw [if_neg (by simp [hr])] at h
      unfold deleteKey
      rw [List.filter_cons]
      cases hr' : (!(r.1 == k')) with
      | true =>
        rw [if_pos rfl]
        rw [tblGet_cons, if_neg (by simp [hr])]
        exact ih k k' h
      | false =>
        rw [if_neg (by simp)]
        exact ih k k' h

theorem not_mem_of_tblGet_none {α : Type} : ∀ (t : List (String × α)) (k : String),
    tblGet t k = none → ∀ v, (k, v) ∉ t := by
  intro t
  induction t with
  | nil => intro k _ v h; cases h
  | cons r rest ih =>
    intro k hg v hm
    rw [tblGet_cons] at hg
    rcases List.mem_cons.mp hm with he | hm2
    · rw [← he] at hg
      rw [if_pos (by simp)] at hg
      cases hg
    · cases hr : (r.1 == k) with
      | true => rw [if_pos (by rw [hr])] at hg; cases hg
      | false =>
        rw [if_neg (by simp [hr])] at hg
        exact ih k hg v hm2

theorem mem_foldl_insertNew : ∀ (l : List String) (init : List String) (x : String),
    x ∈ l.foldl insertNew init → x ∈ init ∨ x ∈ l := by
  intro l
  induction l with
  | nil => intro init x h; exact Or.inl h
  | cons a rest ih =>
    intro init x h
    rcases ih (insertNew init a) x h with h1 | h1
    · unfold insertNew at h1
      split at h1
      · exact Or.inl h1
      · rcases List.mem_append.mp h1 with h2 | h2
        · exact Or.inl h2
        · rcases List.mem_singleton.mp h2 with rfl
          exact Or.inr (List.mem_cons_self _ _)
    · exact Or.inr (List.mem_cons_of_mem a h1)

theorem lastVal_eq_none {α : Type} : ∀ (b : List (String × α)) (k : String),
    (∀ r ∈ b, r.1 ≠ k) → lastVal b k = none := by
  intro b
  induction b with
  | nil => intro k _; rfl
  | cons r rest ih =>
    intro k h
    unfold lastVal
    rw [ih k (fun s hs => h s (List.mem_cons_of_mem r hs))]
    rw [if_neg (by simp [h r (List.mem_cons_self r rest)])]

theorem dbGetTbl_eq_tblGet (db : Db) (t : String) :
    dbGetTbl db t = (tblGet db.tables t).getD [] := rfl

theorem dbGetTbl_of_hasTbl_false {db : Db} {t : String} (h : dbHasTbl db t = false) :
    dbGetTbl db t = [] := by
  rw [dbGetTbl_eq_tblGet, tblGet_none_of_hasKey_false h]
  rfl

theorem tblGetDb_deleteRow_self (db : Db) (t k : String) :
    tblGetDb (dbDeleteRow db t k) t k = none := by
  unfold dbDeleteRow
  cases hh : dbHasTbl db t with
  | false =>
    rw [if_neg (by simp)]
    unfold tblGetDb
    rw [dbGetTbl_of_hasTbl_false hh]
    rfl
  | true =>
    rw [if_pos rfl]
    show tblGet ((tblGet (upsertOne db.tables t (deleteKey (dbGetTbl db t) k)) t).getD [])
      k = none
    rw [tblGet_upsertOne_self]
    exact tblGet_deleteKey_self (dbGetTbl db t) k

theorem tblGetDb_deleteRow_of_none (db : Db) (t k X : String)
    (h : tblGetDb db t X = none) : tblGetDb (dbDeleteRow db t k) t X = none := by
  unfold dbDeleteRow
  cases hh : dbHasTbl db t with
  | false =>
    rw [if_neg (by simp)]
    exact h
  | true =>
    rw [if_pos rfl]
    show tblGet ((tblGet (upsertOne db.tables t (deleteKey (dbGetTbl db t) k)) t).getD [])
      X = none
    rw [tblGet_upsertOne_self]
    exact tblGet_deleteKey_of_none (dbGetTbl db t) X k h

theorem tblGetDb_foldl_deleteRow (t : String) :
    ∀ (l : List String) (eff : Eff) (X : String),
      (X ∈ l ∨ tblGetDb eff.db t X = none) →
      tblGetDb ((l.foldl (fun ef i => deleteRowEff ef t i) eff)).db t X = none := by
  intro l
  induction l with
  | nil =>
    intro eff X h
    rcases h with h | h
    · cases h
    · exact h
  | cons i rest ih =>
    intro eff X h
    show tblGetDb ((rest.foldl (fun ef i => deleteRowEff ef t i)
      (deleteRowEff eff t i))).db t X = none
    apply ih
    rcases h with h | h
    · rcases List.mem_cons.mp h with he | h2
      · right
        rw [he]
        exact tblGetDb_deleteRow_self eff.db t i
      · left
        exact h2
    · right
      exact tblGetDb_deleteRow_of_none eff.db t i X h

theorem tblGetDb_upsertAllTbl_none (db : Db) (t X : String) (batch : Tbl)
    (h1 : tblGetDb db t X = none) (h2 : lastVal batch X = none) :
    tblGetDb (dbUpsertAllTbl db t batch) t X = none := by
  show tblGet ((tblGet (upsertOne db.tables t (upsertAll (dbGetTbl db t) batch)) t).getD [])
    X = none
  rw [tblGet_upsertOne_self]
  show tblGet (upsertAll (dbGetTbl db t) batch) X = none
  rw [tblGet_upsertAll batch (dbGetTbl db t) X, h2]
  exact h1

theorem dropTblIfEff_syncState (eff : Eff) (t : String) :
    (dropTblIfEff eff t).db.syncState = eff.db.syncState := by
  unfold dropTblIfEff dropTblEff dbDropTbl
  split <;> rfl

/-- Every search hit comes from a current row of the table of the source it
is tagged with. -/
theorem search_mem_table (db : Db) (q : String) (svcOpt : Option String) (h : Hit)
    (hmem : h ∈ search_cache db q svcOpt) :
    ∃ tp, tp ∈ searchTargets svcOpt ∧ h.service = tp.1 ∧
      (h.key, h.row) ∈ dbGetTbl db tp.2 := by
  unfold search_cache at hmem
  rcases List.mem_flatMap.mp hmem with ⟨tp, htp, hin⟩
  refine ⟨tp, htp, ?_⟩
  unfold searchOne at hin
  split at hin
  · rcases List.mem_map.mp hin with ⟨kr, hkr, hh⟩
    have hkr2 : kr ∈ dbGetTbl db tp.2 :=
      List.mem_of_mem_filter (List.take_subset 20 _ hkr)
    rw [← hh]
    exact ⟨rfl, hkr2⟩
  · cases hin

/-! ### Claim theorems -/

/-- C5: applying the same full-ingest batch `upsert_all` twice leaves the
mirror table with exactly the same rows (same lookup at every key and same
row count) as applying it once; upserting preserves the at-most-one-row-per
-identifier invariant; and re-syncing is last-write-wins: the last record
for a key in the batch is what the table holds afterwards. -/
theorem upsert_idempotent_unique_key :
    ∀ (t b : Tbl),
      (∀ k, tblGet (upsertAll (upsertAll t b) b) k = tblGet (upsertAll t b) k) ∧
      (upsertAll (upsertAll t b) b).length = (upsertAll t b).length ∧
      (keysNodup t → keysNodup (upsertAll t b)) ∧
      (∀ k v, lastVal b k = some v → tblGet (upsertAll t b) k = some v) := by
  intro t b
  refine ⟨?_, ?_, keysNodup_upsertAll b t, ?_⟩
  · intro k
    rw [tblGet_upsertAll b (upsertAll t b) k]
    cases hl : lastVal b k with
    | some v =>
      rw [tblGet_upsertAll b t k, hl]
    | none => rfl
  · exact length_upsertAll_present b (upsertAll t b)
      (fun r hr => hasKey_upsertAll_of_batch b t r hr)
  · intro k v hl
    rw [tblGet_upsertAll b t k, hl]

def c5t : Tbl := [("m1", [("subject", "Hi")])]

def c5b : Tbl := [("m1", [("subject", "Hello")]), ("m2", [("subject", "Invoice")])]

theorem upsert_idempotent_unique_key_witness :
    (∀ k, tblGet (upsertAll (upsertAll c5t c5b) c5b) k = tblGet (upsertAll c5t c5b) k) ∧
    keysNodup (upsertAll c5t c5b) ∧
    tblGet (upsertAll c5t c5b) "m1" = some [("subject", "Hello")] :=
  ⟨(upsert_idempotent_unique_key c5t c5b).1,
   (upsert_idempotent_unique_key c5t c5b).2.2.1 (by unfold keysNodup; decide),
   (upsert_idempotent_unique_key c5t c5b).2.2.2 "m1" [("subject", "Hello")] (by decide)⟩

/-- C8: reading the sync state never fails — a missing or unreadable
`sync_state` row yields the zero-value state (no cursor, no last-sync,
count 0), whose falsy cursor sends the next `sync_gmail` run straight into
the full-ingest branch. -/
theorem sync_state_get_never_fails :
    (∀ (svc e : String), getSyncStateR (Except.error e) svc = zeroRow svc) ∧
    (∀ (svc : String) (row : SyncRow), getSyncStateR (Except.ok row) svc = row) ∧
    (∀ svc, cursorOf (zeroRow svc) = none) ∧
    (∀ (db : Db) (svc e : String), rawGetState db svc = Except.error e →
      get_sync_state db svc = zeroRow svc) ∧
    (∀ (srv : GmailServer) (fuel : Nat) (eff : Eff) (e : String),
      rawGetState eff.db "gmail" = Except.error e →
      gmailIngest srv fuel (cursorOf (get_sync_state eff.db "gmail")) eff =
        gmail_full srv fuel eff) := by
  refine ⟨fun svc e => rfl, fun svc row => rfl, fun svc => rfl, ?_, ?_⟩
  · intro db svc e h
    unfold get_sync_state
    rw [h]
    rfl
  · intro srv fuel eff e h
    have h2 : get_sync_state eff.db "gmail" = zeroRow "gmail" := by
      unfold get_sync_state
      rw [h]
      rfl
    rw [h2]
    rfl

def dbEmpty : Db := ⟨[], [], []⟩

def effEmpty : Eff := ⟨dbEmpty, []⟩

theorem sync_state_get_never_fails_witness :
    rawGetState dbEmpty "gmail" = Except.error "NotFoundError" ∧
    get_sync_state dbEmpty "gmail" = zeroRow "gmail" ∧
    getSyncStateR (Except.error "sqlite3.DatabaseError") "calendar" = zeroRow "calendar" :=
  ⟨rfl,
   sync_state_get_never_fails.2.2.2.1 dbEmpty "gmail" "NotFoundError" rfl,
   sync_state_get_never_fails.1 "calendar" "sqlite3.DatabaseError"⟩

/-- C10: a non-empty service name outside the known five makes `search_cache`
silently fall back to searching every source table — identical results to an
unscoped search — rather than erroring or returning nothing. -/
theorem search_unknown_service_searches_all :
    ∀ (db : Db) (q s : String), s ≠ "" →
      tablesMap.find? (fun p => p.1 == s) = none →
      search_cache db q (some s) = search_cache db q none := by
  intro db q s hne hfind
  unfold search_cache searchTargets
  dsimp only
  rw [if_neg (by simp [hne]), hfind]

def c10db : Db :=
  ⟨[], [("gmail_messages", [("m1", [("subject", "Hi there")])])],
   [("gmail_messages", ["subject"])]⟩

theorem search_unknown_service_searches_all_witness :
    search_cache c10db "Hi" (some "mail") = search_cache c10db "Hi" none ∧
    search_cache c10db "Hi" (some "mail") =
      [⟨"gmail", "m1", [("subject", "Hi there")]⟩] :=
  ⟨search_unknown_service_searches_all c10db "Hi" "mail" (by decide) (by decide),
   by decide⟩

/-- C7: searching with a valid service scope only ever returns hits tagged
with that service — rows of other sources never appear, whatever the query
matches elsewhere. -/
theorem search_scoped_single_source :
    ∀ (db : Db) (q s : String) (p : String × String),
      tablesMap.find? (fun p => p.1 == s) = some p →
      ∀ h, h ∈ search_cache db q (some s) → h.service = s := by
  intro db q s p hfind h hmem
  by_cases hs : s = ""
  · rw [hs] at hfind
    cases hfind
  · unfold search_cache searchTargets at hmem
    dsimp only at hmem
    rw [if_neg (by simp [hs]), hfind] at hmem
    have hp : p.1 = s := by
      have h2 := List.find?_some hfind
      exact beq_iff_eq.mp h2
    rcases List.mem_flatMap.mp hmem with ⟨tp, htp, hin⟩
    rcases List.mem_singleton.mp htp with rfl
    unfold searchOne at hin
    split at hin
    · rcases List.mem_map.mp hin with ⟨kr, _, hh⟩
      rw [← hh]
      exact hp
    · cases hin

def c7db : Db :=
  ⟨[],
   [("gmail_messages", [("m9", [("subject", "foo plan")])]),
    ("contacts", [("p1", [("name", "foo bar")])])],
   [("gmail_messages", ["subject"]), ("contacts", ["name"])]⟩

theorem search_scoped_single_source_witness :
    tablesMap.find? (fun p => p.1 == "contacts") = some ("contacts", "contacts") ∧
    search_cache c7db "foo" (some "contacts") =
      [⟨"contacts", "p1", [("name", "foo bar")]⟩] ∧
    (∀ h, h ∈ search_cache c7db "foo" (some "contacts") → h.service = "contacts") :=
  ⟨rfl, by decide,
   search_scoped_single_source c7db "foo" "contacts" ("contacts", "contacts") rfl⟩

/-- The Calendar oracle of the cursor-expiry scenario: every `events().list`
call carrying the stored sync token answers HTTP 410. -/
def cal410 : CalServer :=
  ⟨fun st _ _ =>
    if st == some "t0" then Except.error (Exn.other "HttpError 410 Gone")
    else Except.ok ⟨[], none, some "fresh"⟩⟩

def calRow410 : SyncRow := ⟨"calendar", some "t0", some "2025-06-01T00:00:00Z", 3⟩

def eff410 : Eff :=
  ⟨⟨[("calendar", calRow410)],
    [("calendar_events", [("e1", [("summary", "standup")])])],
    [("calendar_events", ["summary", "description", "location"])]⟩, []⟩

theorem strContains410 : strContains (exnStr (Exn.other "HttpError 410 Gone")) "410" = true := by
  decide

theorem calendar410Loop :
    ∀ (fuel : Nat) (eff : Eff), tblGet eff.db.syncState "calendar" = some calRow410 →
      sync_calendar cal410 fuel "2026-01-01T00:00:00Z" eff = none := by
  intro fuel
  induction fuel with
  | zero => intro eff _; rfl
  | succ fuel ih =>
    intro eff h
    have hst : get_sync_state eff.db "calendar" = calRow410 := by
      unfold get_sync_state rawGetState
      rw [h]
      rfl
    show sync_calendar cal410 (fuel + 1) "2026-01-01T00:00:00Z" eff = none
    unfold sync_calendar
    dsimp only
    rw [hst]
    have hloop : calListLoop cal410 (fuel + 1) (calBase (cursorOf calRow410)).1
        (calBase (cursorOf calRow410)).2 none [] eff =
        some (eff, Except.error (Exn.other "HttpError 410 Gone")) := by
      show calListLoop cal410 (fuel + 1) (some "t0") none none [] eff = _
      unfold calListLoop
      rfl
    rw [hloop]
    dsimp only
    rw [if_pos strContains410]
    apply ih
    rw [dropTblIfEff_syncState]
    exact h

/-- C1: the cursor-expiry "recovery" of `sync_calendar` never terminates on a
source that consistently rejects the stored token: the recursion drops the
mirror table but leaves the stale `sync_token` in `sync_state`, so the
retried call issues the same expired-cursor request again and recurses —
for every fuel bound the run fails to complete, instead of performing one
full re-ingest ending with a fresh cursor as specified. -/
theorem calendar_cursor_expiry_recursion_diverges :
    ∀ fuel : Nat, sync_calendar cal410 fuel "2026-01-01T00:00:00Z" eff410 = none :=
  fun fuel => calendar410Loop fuel eff410 (by decide)

/-- C6: a gmail incremental batch containing a tombstone for identifier `X`
(and no re-add of `X`) removes `X`'s row from the mirror table; afterwards no
search (over the trigger-maintained index, i.e. the current rows) returns a
gmail hit keyed `X`, and if `X`'s row was the only thing a query could still
match, the search returns no result at all. -/
theorem tombstone_removes_row_and_search :
    ∀ (srv : GmailServer) (fuel : Nat) (hid X q : String) (page : GHistPage)
      (eff eff' : Eff) (r : Except Exn Nat),
      srv.histPage hid none = Except.ok page →
      page.nextPageToken = none →
      X ∈ page.deleted →
      X ∉ page.added ++ page.labelsAdded ++ page.labelsRemoved →
      (∀ i m, srv.getMsg i = Except.ok m → m.id = i) →
      gmail_incremental srv (fuel + 1) hid eff = some (eff', r) →
      tblGetDb eff'.db "gmail_messages" X = none ∧
      (∀ h, h ∈ search_cache eff'.db q none → h.service = "gmail" → h.key ≠ X) ∧
      ((∀ h, h ∈ search_cache eff'.db q none → h.service = "gmail" ∧ h.key = X) →
        search_cache eff'.db q none = []) := by
  intro srv fuel hid X q page eff eff' r hp hnext hdel hnot hfaith hrun
  have hhist : gmailHistLoop srv (fuel + 1) hid none [] eff =
      some (page.deleted.foldl (fun ef i => deleteRowEff ef "gmail_messages" i) eff,
        Except.ok ((page.labelsAdded ++ page.labelsRemoved).foldl insertNew
          (page.added.foldl insertNew []))) := by
    unfold gmailHistLoop
    rw [hp]
    dsimp only
    rw [hnext]
  unfold gmail_incremental at hrun
  rw [hhist] at hrun
  dsimp only at hrun
  injection hrun with hrun
  injection hrun with h1 h2
  simp only [List.mem_append, not_or] at hnot
  have hA : tblGetDb (page.deleted.foldl
      (fun ef i => deleteRowEff ef "gmail_messages" i) eff).db "gmail_messages" X = none :=
    tblGetDb_foldl_deleteRow "gmail_messages" page.deleted eff X (Or.inl hdel)
  have hB : X ∉ (page.labelsAdded ++ page.labelsRemoved).foldl insertNew
      (page.added.foldl insertNew []) := by
    intro hmem
    rcases mem_foldl_insertNew _ _ _ hmem with hm1 | hm1
    · rcases mem_foldl_insertNew _ _ _ hm1 with hm2 | hm2
      · cases hm2
      · exact hnot.1.1 hm2
    · rcases List.mem_append.mp hm1 with hm2 | hm2
      · exact hnot.1.2 hm2
      · exact hnot.2 hm2
  have hC : lastVal (gmailFetchChanged srv ((page.labelsAdded ++ page.labelsRemoved).foldl
      insertNew (page.added.foldl insertNew []))) X = none := by
    apply lastVal_eq_none
    intro rr hrr
    rcases List.mem_filterMap.mp hrr with ⟨i, hi, hfi⟩
    cases hm : srv.getMsg i with
    | error e => rw [hm] at hfi; cases hfi
    | ok m =>
      rw [hm] at hfi
      injection hfi with hfi
      rw [← hfi]
      show (gmailNormalize m).1 ≠ X
      show m.id ≠ X
      rw [hfaith i m hm]
      intro hc
      rw [hc] at hi
      exact hB hi
  have hD : tblGetDb eff'.db "gmail_messages" X = none := by
    rw [← h1]
    split
    · exact hA
    · exact tblGetDb_upsertAllTbl_none _ _ _ _ hA hC
  have hkey : ∀ h, h ∈ search_cache eff'.db q none → h.service = "gmail" → h.key ≠ X := by
    intro h hmem hg hkX
    rcases search_mem_table eff'.db q none h hmem with ⟨tp, htp, hserv, hrow⟩
    have htp1 : tp.1 = "gmail" := by rw [← hserv, hg]
    have htbl : tp.2 = "gmail_messages" := by
      have htp2 : tp ∈ [("gmail", "gmail_messages"), ("calendar", "calendar_events"),
          ("contacts", "contacts"), ("drive", "drive_files"),
          ("photos", "photos_media")] := htp
      fin_cases htp2
      · rfl
      · exact absurd htp1 (by decide)
      · exact absurd htp1 (by decide)
      · exact absurd htp1 (by decide)
      · exact absurd htp1 (by decide)
    rw [htbl] at hrow
    rw [hkX] at hrow
    exact not_mem_of_tblGet_none _ X hD h.row hrow
  refine ⟨hD, hkey, ?_⟩
  intro hall
  cases hs : search_cache eff'.db q none with
  | nil => rfl
  | cons h rest =>
    have hmem : h ∈ search_cache eff'.db q none := by
      rw [hs]
      exact List.mem_cons_self _ _
    rcases hall h hmem with ⟨hg, hkX⟩
    exact absurd hkX (hkey h hmem hg)

/-- The incremental-batch oracle of the C6 witness scenario: one history page
deleting `m3`, nothing else. -/
def gmailTomb : GmailServer :=
  ⟨fun _ => Except.error (Exn.other "unused"),
   fun _ => Except.error (Exn.other "HttpError 404"),
   fun _ _ => Except.ok ⟨[], ["m3"], [], [], none⟩,
   Except.error (Exn.other "unused")⟩

def effC6 : Eff :=
  ⟨⟨[("gmail", ⟨"gmail", some "h1", some "2026-01-01T00:00:00Z", 3⟩)],
    [("gmail_messages",
      [("m1", [("subject", "Hi"), ("snippet", "a")]),
       ("m2", [("subject", "Re: Hi"), ("snippet", "b")]),
       ("m3", [("subject", "Invoice"), ("snippet", "c")])])],
    [("gmail_messages", ["subject", "sender", "recipients", "snippet"])]⟩, []⟩

def effC6out : Eff :=
  ((gmail_incremental gmailTomb 3 "h1" effC6).getD (effC6, Except.ok 0)).1

theorem tombstone_removes_row_and_search_witness :
    gmail_incremental gmailTomb 3 "h1" effC6 = some (effC6out, Except.ok 0) ∧
    tblGetDb effC6out.db "gmail_messages" "m3" = none ∧
    search_cache effC6out.db "Invoice" none = [] := by
  have hrun : gmail_incremental gmailTomb 3 "h1" effC6 = some (effC6out, Except.ok 0) := by
    rfl
  have hmain := tombstone_removes_row_and_search gmailTomb 2 "h1" "m3" "Invoice"
    ⟨[], ["m3"], [], [], none⟩ effC6 effC6out (Except.ok 0) rfl rfl (by decide) (by decide)
    (fun i m hm => by cases hm) hrun
  refine ⟨hrun, hmain.1, hmain.2.2 ?_⟩
  intro h hmem
  have : search_cache effC6out.db "Invoice" none = [] := by decide
  rw [this] at hmem
  cases hmem

/-! ### Concrete scenario servers -/

def dummyGmail : GmailServer :=
  ⟨fun _ => Except.error (Exn.other "unused"), fun _ => Except.error (Exn.other "unused"),
   fun _ _ => Except.error (Exn.other "unused"), Except.error (Exn.other "unused")⟩

def dummyCal : CalServer := ⟨fun _ _ _ => Except.error (Exn.other "unused")⟩

def dummyPpl : PplServer := ⟨fun _ _ _ => Except.error (Exn.other "unused")⟩

def dummyDrive : DriveServer :=
  ⟨fun _ => Except.error (Exn.other "unused"), Except.error (Exn.other "unused"),
   fun _ => Except.error (Exn.other "unused")⟩

def dummyPhotos : PhotosServer := ⟨fun _ => Except.error (Exn.other "unused")⟩

/-- A quiet Calendar source: one empty page with a fresh sync token. -/
def calOk : CalServer := ⟨fun _ _ _ => Except.ok ⟨[], none, some "ct1"⟩⟩

/-- A Gmail source whose every call raises a `NETWORK_ERRORS` member. -/
def gmailNetFail : GmailServer :=
  ⟨fun _ => Except.error (Exn.net "ReadTimeout" "timed out"),
   fun _ => Except.error (Exn.net "ReadTimeout" "timed out"),
   fun _ _ => Except.error (Exn.net "ReadTimeout" "timed out"),
   Except.error (Exn.net "ReadTimeout" "timed out")⟩

/-- A Gmail source whose every call raises an authorization failure (an
`HttpError`, which is not in `NETWORK_ERRORS`). -/
def gmailAuthFail : GmailServer :=
  ⟨fun _ => Except.error (Exn.other "HttpError 401 Invalid Credentials"),
   fun _ => Except.error (Exn.other "HttpError 401 Invalid Credentials"),
   fun _ _ => Except.error (Exn.other "HttpError 401 Invalid Credentials"),
   Except.error (Exn.other "HttpError 401 Invalid Credentials")⟩

def srvsC2 : Servers := ⟨gmailAuthFail, calOk, dummyPpl, dummyDrive, dummyPhotos⟩

def srvsC3 : Servers := ⟨gmailNetFail, calOk, dummyPpl, dummyDrive, dummyPhotos⟩

/-! ### Sync-run decomposition lemmas -/

theorem mainSyncRun_cons (srvs : Servers) (fuel : Nat) (now svc : String)
    (rest : List String) (eff effA : Eff) (o : Outcome) (out : RunOut)
    (h1 : runService srvs fuel now svc eff = some (effA, o))
    (h2 : mainSyncRun srvs fuel now (svc :: rest) eff = some out) :
    out.exitCode = 0 ∧
    ∃ out2, mainSyncRun srvs fuel now rest effA = some out2 ∧
      out.outcomes = (svc, o) :: out2.outcomes ∧ out.eff = out2.eff := by
  unfold mainSyncRun at h2
  rw [mainSyncCore_cons srvs fuel now svc rest eff effA o h1] at h2
  cases hm : mainSyncCore srvs fuel now rest effA with
  | none => rw [hm] at h2; cases h2
  | some q =>
    obtain ⟨eff2, outs2⟩ := q
    rw [hm] at h2
    dsimp only at h2
    injection h2 with h2
    have hrest : mainSyncRun srvs fuel now rest effA = some ⟨eff2, outs2, 0⟩ := by
      unfold mainSyncRun
      rw [hm]
    rw [← h2]
    exact ⟨rfl, ⟨eff2, outs2, 0⟩, hrest, rfl, rfl⟩

theorem mainSyncRun_core (srvs : Servers) (fuel : Nat) (now : String)
    (svcs : List String) (eff : Eff) (out : RunOut)
    (h : mainSyncRun srvs fuel now svcs eff = some out) :
    mainSyncCore srvs fuel now svcs eff = some (out.eff, out.outcomes) := by
  unfold mainSyncRun at h
  cases hm : mainSyncCore srvs fuel now svcs eff with
  | none => rw [hm] at h; cases h
  | some q =>
    obtain ⟨e2, o2⟩ := q
    rw [hm] at h
    dsimp only at h
    injection h with h
    rw [← h]

/-- C2 counterexample: with the gmail adapter raising an authorization error
(`HttpError 401`) the run is *not* fatal — the calendar source still syncs
and the process exits 0, against the claim that an auth failure fails the
whole run. -/
theorem auth_failure_run_not_fatal_cx :
    (mainSyncRun srvsC2 3 "2026-01-05T00:00:00Z" ["gmail", "calendar"] effEmpty).map
        (fun o => (o.exitCode, o.outcomes)) =
      some (0, [("gmail", Outcome.errored "HttpError 401 Invalid Credentials"),
                ("calendar", Outcome.synced 0)]) := by
  decide

/-- C2 (amended): an authorization failure raised by an adapter is caught at
the per-source boundary like any other non-network exception: the loop
records the distinct `Error — ...` outcome for it (a different outcome from
the `Network error, skipping` one used for transient failures, so the two
are distinguishable in output), the remaining sources still run, the failed
source's sync_state is untouched, and the process exits 0 — the run is not
fatal. -/
theorem auth_failure_isolated_reported :
    ∀ (srvs : Servers) (fuel : Nat) (now svc : String) (rest : List String)
      (eff effA : Eff) (msg : String) (out : RunOut),
      runService srvs fuel now svc eff = some (effA, Outcome.errored msg) →
      mainSyncRun srvs fuel now (svc :: rest) eff = some out →
      out.exitCode = 0 ∧
      (∃ out2, mainSyncRun srvs fuel now rest effA = some out2 ∧
        out.outcomes = (svc, Outcome.errored msg) :: out2.outcomes ∧
        out.eff = out2.eff) ∧
      effA.db.syncState = eff.db.syncState ∧
      (∀ ty, Outcome.errored msg ≠ Outcome.skippedNet ty) := by
  intro srvs fuel now svc rest eff effA msg out h1 h2
  obtain ⟨hexit, hrest⟩ := mainSyncRun_cons srvs fuel now svc rest eff effA _ out h1 h2
  refine ⟨hexit, hrest, ?_, fun ty hc => Outcome.noConfusion hc⟩
  exact runService_fail_state srvs fuel now svc eff effA _ h1
    (fun n hc => Outcome.noConfusion hc)

def c2out : RunOut :=
  (mainSyncRun srvsC2 3 "2026-01-05T00:00:00Z" ["gmail", "calendar"] effEmpty).getD
    ⟨effEmpty, [], 1⟩

theorem auth_failure_isolated_reported_witness :
    runService srvsC2 3 "2026-01-05T00:00:00Z" "gmail" effEmpty =
      some (effEmpty, Outcome.errored "HttpError 401 Invalid Credentials") ∧
    c2out.exitCode = 0 ∧
    effEmpty.db.syncState = effEmpty.db.syncState := by
  have h1 : runService srvsC2 3 "2026-01-05T00:00:00Z" "gmail" effEmpty =
      some (effEmpty, Outcome.errored "HttpError 401 Invalid Credentials") := by rfl
  have h2 : mainSyncRun srvsC2 3 "2026-01-05T00:00:00Z" ["gmail", "calendar"] effEmpty =
      some c2out := by rfl
  have hm := auth_failure_isolated_reported srvsC2 3 "2026-01-05T00:00:00Z" "gmail"
    ["calendar"] effEmpty effEmpty "HttpError 401 Invalid Credentials" c2out h1 h2
  exact ⟨h1, hm.1, hm.2.2.1⟩

/-- C3: if a source's adapter raises a network-class exception, the loop
skips it: exit code is 0, the remaining sources still run (continuing from
the skipped source's post-state), and the skipped source's sync_state row —
its stored cursor — is unchanged, both right after its turn and at the end
of the run provided the source does not appear again in the list. -/
theorem network_failure_isolated :
    ∀ (srvs : Servers) (fuel : Nat) (now svc : String) (rest : List String)
      (eff effA : Eff) (ty : String) (out : RunOut),
      runService srvs fuel now svc eff = some (effA, Outcome.skippedNet ty) →
      mainSyncRun srvs fuel now (svc :: rest) eff = some out →
      out.exitCode = 0 ∧
      (∃ out2, mainSyncRun srvs fuel now rest effA = some out2 ∧
        out.outcomes = (svc, Outcome.skippedNet ty) :: out2.outcomes ∧
        out.eff = out2.eff) ∧
      rawGetState effA.db svc = rawGetState eff.db svc ∧
      (svc ∉ rest → rawGetState out.eff.db svc = rawGetState eff.db svc) := by
  intro srvs fuel now svc rest eff effA ty out h1 h2
  obtain ⟨hexit, out2, hrest, houts, heff⟩ :=
    mainSyncRun_cons srvs fuel now svc rest eff effA _ out h1 h2
  have hstate : effA.db.syncState = eff.db.syncState :=
    runService_fail_state srvs fuel now svc eff effA _ h1
      (fun n hc => Outcome.noConfusion hc)
  refine ⟨hexit, ⟨out2, hrest, houts, heff⟩, ?_, ?_⟩
  · unfold rawGetState
    rw [hstate]
  · intro hnr
    have hcore := mainSyncRun_core srvs fuel now rest effA out2 hrest
    unfold rawGetState
    rw [heff]
    rw [mainSyncCore_frame srvs fuel now rest effA out2.eff out2.outcomes hcore svc hnr]
    rw [hstate]

def c3out : RunOut :=
  (mainSyncRun srvsC3 3 "2026-01-05T00:00:00Z" ["gmail", "calendar"] effEmpty).getD
    ⟨effEmpty, [], 1⟩

theorem network_failure_isolated_witness :
    runService srvsC3 3 "2026-01-05T00:00:00Z" "gmail" effEmpty =
      some (effEmpty, Outcome.skippedNet "ReadTimeout") ∧
    c3out.exitCode = 0 ∧
    rawGetState c3out.eff.db "gmail" = rawGetState effEmpty.db "gmail" := by
  have h1 : runService srvsC3 3 "2026-01-05T00:00:00Z" "gmail" effEmpty =
      some (effEmpty, Outcome.skippedNet "ReadTimeout") := by rfl
  have h2 : mainSyncRun srvsC3 3 "2026-01-05T00:00:00Z" ["gmail", "calendar"] effEmpty =
      some c3out := by rfl
  have hm := network_failure_isolated srvsC3 3 "2026-01-05T00:00:00Z" "gmail" ["calendar"]
    effEmpty effEmpty "ReadTimeout" c3out h1 h2
  exact ⟨h1, hm.1, hm.2.2.2 (by decide)⟩

/-- C4: every adapter's successful run commits the new cursor as its final
database action — the `set_sync_state` event heads the trace, so every
mirror-table write of the run happened before the cursor commit — and the
sync loop never touches the sync_state row of a service outside the list it
was asked to sync, so a termination between two adapters' turns leaves the
pending services' cursors intact. -/
theorem cursor_committed_after_writes :
    (∀ (srv : GmailServer) (fuel : Nat) (now : String) (eff eff' : Eff) (n : Nat),
      sync_gmail srv fuel now eff = some (eff', Res.ok n) →
      CommitLast eff eff' "gmail") ∧
    (∀ (srv : CalServer) (fuel : Nat) (now : String) (eff eff' : Eff) (n : Nat),
      sync_calendar srv fuel now eff = some (eff', Res.ok n) →
      CommitLast eff eff' "calendar") ∧
    (∀ (srv : PplServer) (fuel : Nat) (now : String) (eff eff' : Eff) (n : Nat),
      sync_contacts srv fuel now eff = some (eff', Res.ok n) →
      CommitLast eff eff' "contacts") ∧
    (∀ (srv : DriveServer) (fuel : Nat) (now : String) (eff eff' : Eff) (n : Nat),
      sync_drive srv fuel now eff = some (eff', Res.ok n) →
      CommitLast eff eff' "drive") ∧
    (∀ (srv : PhotosServer) (fuel : Nat) (now : String) (eff eff' : Eff) (n : Nat),
      sync_photos srv fuel now eff = some (eff', Res.ok n) →
      CommitLast eff eff' "photos") ∧
    (∀ (srvs : Servers) (fuel : Nat) (now : String) (svcs : List String)
      (eff eff1 : Eff) (outs : List (String × Outcome)) (s : String),
      mainSyncCore srvs fuel now svcs eff = some (eff1, outs) → s ∉ svcs →
      rawGetState eff1.db s = rawGetState eff.db s) := by
  refine ⟨?_, ?_, ?_, ?_, ?_, ?_⟩
  · intro srv fuel now eff eff' n h
    exact adShapeCommitLast (sync_gmail_shape srv fuel now eff eff' _ h) rfl
  · intro srv fuel now eff eff' n h
    exact adShapeCommitLast (sync_calendar_shape srv now fuel eff eff' _ h) rfl
  · intro srv fuel now eff eff' n h
    exact adShapeCommitLast (sync_contacts_shape srv now fuel eff eff' _ h) rfl
  · intro srv fuel now eff eff' n h
    exact adShapeCommitLast (sync_drive_shape srv fuel now eff eff' _ h) rfl
  · intro srv fuel now eff eff' n h
    exact adShapeCommitLast (sync_photos_shape srv fuel now eff eff' _ h) rfl
  · intro srvs fuel now svcs eff eff1 outs s h hs
    unfold rawGetState
    rw [mainSyncCore_frame srvs fuel now svcs eff eff1 outs h s hs]

/-- A one-message Gmail source for the C4 witness run. -/
def gmailW : GmailServer :=
  ⟨fun _ => Except.ok (["m1"], none),
   fun i => Except.ok ⟨i, "t1", "snippet one",
     [("Subject", "Hello"), ("From", "a@b.example")], ["INBOX"], 10⟩,
   fun _ _ => Except.ok ⟨[], [], [], [], none⟩,
   Except.ok (some "h5")⟩

def srvsC4 : Servers := ⟨gmailW, calOk, dummyPpl, dummyDrive, dummyPhotos⟩

def c4eff : Eff :=
  ((sync_gmail gmailW 3 "2026-01-06T00:00:00Z" effEmpty).getD (effEmpty, Res.ok 0)).1

theorem cursor_committed_after_writes_witness :
    sync_gmail gmailW 3 "2026-01-06T00:00:00Z" effEmpty = some (c4eff, Res.ok 1) ∧
    CommitLast effEmpty c4eff "gmail" ∧
    rawGetState c4eff.db "drive" = rawGetState effEmpty.db "drive" := by
  have h1 : sync_gmail gmailW 3 "2026-01-06T00:00:00Z" effEmpty =
      some (c4eff, Res.ok 1) := by rfl
  have h2 : mainSyncCore srvsC4 3 "2026-01-06T00:00:00Z" ["gmail"] effEmpty =
      some (c4eff, [("gmail", Outcome.synced 1)]) := by rfl
  exact ⟨h1,
    cursor_committed_after_writes.1 gmailW 3 "2026-01-06T00:00:00Z" effEmpty c4eff 1 h1,
    cursor_committed_after_writes.2.2.2.2.2 srvsC4 3 "2026-01-06T00:00:00Z" ["gmail"]
      effEmpty c4eff [("gmail", Outcome.synced 1)] "drive" h2 (by decide)⟩

/-- C9 counterexample: an ingest attempt aborted by a network failure writes
no sync state at all — `sync_gmail` propagates the exception with the
database untouched, and `sync_state` still has no gmail row afterwards, so
the state is not written "after every ingest attempt (including partial
attempts)". -/
theorem sync_state_not_written_on_aborted_attempt_cx :
    sync_gmail gmailNetFail 3 "2026-02-02T00:00:00Z" effEmpty =
      some (effEmpty, Res.exn (Exn.net "ReadTimeout" "timed out")) ∧
    rawGetState effEmpty.db "gmail" = Except.error "NotFoundError" := ⟨rfl, rfl⟩

/-- C9 (amended): `set_sync_state` upserts by service name, always stamps
`last_sync` with the current time, and leaves other services' rows alone;
and every adapter run that completes without raising — including incremental
runs that ingested zero changes — ends with the freshly-stamped row for its
service in place.  (Runs aborted by an exception write nothing, per the
counterexample.) -/
theorem sync_state_write_semantics :
    (∀ (db : Db) (svc : String) (tok : Option String) (cnt : Nat) (now : String),
      tblGet (set_sync_state db svc tok cnt now).syncState svc =
        some ⟨svc, some (tok.getD ""), some now, cnt⟩) ∧
    (∀ (db : Db) (svc : String) (tok : Option String) (cnt : Nat) (now s : String),
      s ≠ svc →
      tblGet (set_sync_state db svc tok cnt now).syncState s = tblGet db.syncState s) ∧
    (∀ (srv : GmailServer) (fuel : Nat) (now : String) (eff eff' : Eff) (n : Nat),
      sync_gmail srv fuel now eff = some (eff', Res.ok n) →
      ∃ tok cnt, tblGet eff'.db.syncState "gmail" =
        some ⟨"gmail", some tok, some now, cnt⟩) ∧
    (∀ (srv : CalServer) (fuel : Nat) (now : String) (eff eff' : Eff) (n : Nat),
      sync_calendar srv fuel now eff = some (eff', Res.ok n) →
      ∃ tok cnt, tblGet eff'.db.syncState "calendar" =
        some ⟨"calendar", some tok, some now, cnt⟩) ∧
    (∀ (srv : PplServer) (fuel : Nat) (now : String) (eff eff' : Eff) (n : Nat),
      sync_contacts srv fuel now eff = some (eff', Res.ok n) →
      ∃ tok cnt, tblGet eff'.db.syncState "contacts" =
        some ⟨"contacts", some tok, some now, cnt⟩) ∧
    (∀ (srv : DriveServer) (fuel : Nat) (now : String) (eff eff' : Eff) (n : Nat),
      sync_drive srv fuel now eff = some (eff', Res.ok n) →
      ∃ tok cnt, tblGet eff'.db.syncState "drive" =
        some ⟨"drive", some tok, some now, cnt⟩) ∧
    (∀ (srv : PhotosServer) (fuel : Nat) (now : String) (eff eff' : Eff) (n : Nat),
      sync_photos srv fuel now eff = some (eff', Res.ok n) →
      ∃ tok cnt, tblGet eff'.db.syncState "photos" =
        some ⟨"photos", some tok, some now, cnt⟩) := by
  refine ⟨?_, ?_, ?_, ?_, ?_, ?_, ?_⟩
  · intro db svc tok cnt now
    exact tblGet_upsertOne_self db.syncState svc _
  · intro db svc tok cnt now s hs
    exact tblGet_upsertOne_other db.syncState svc s _ hs
  · intro srv fuel now eff eff' n h
    exact adShapeOkRow (sync_gmail_shape srv fuel now eff eff' _ h) rfl
  · intro srv fuel now eff eff' n h
    exact adShapeOkRow (sync_calendar_shape srv now fuel eff eff' _ h) rfl
  · intro srv fuel now eff eff' n h
    exact adShapeOkRow (sync_contacts_shape srv now fuel eff eff' _ h) rfl
  · intro srv fuel now eff eff' n h
    exact adShapeOkRow (sync_drive_shape srv fuel now eff eff' _ h) rfl
  · intro srv fuel now eff eff' n h
    exact adShapeOkRow (sync_photos_shape srv fuel now eff eff' _ h) rfl

/-- A Gmail source whose incremental pass reports zero changes. -/
def gmailZero : GmailServer :=
  ⟨fun _ => Except.ok ([], none),
   fun _ => Except.error (Exn.other "HttpError 404"),
   fun _ _ => Except.ok ⟨[], [], [], [], none⟩,
   Except.ok (some "h2")⟩

def effC9 : Eff :=
  ⟨⟨[("gmail", ⟨"gmail", some "h1", some "2026-01-01T00:00:00Z", 0⟩)], [], []⟩, []⟩

def c9eff : Eff :=
  ((sync_gmail gmailZero 3 "2026-03-01T00:00:00Z" effC9).getD (effC9, Res.ok 0)).1

theorem sync_state_write_semantics_witness :
    sync_gmail gmailZero 3 "2026-03-01T00:00:00Z" effC9 = some (c9eff, Res.ok 0) ∧
    (∃ tok cnt, tblGet c9eff.db.syncState "gmail" =
      some ⟨"gmail", some tok, some "2026-03-01T00:00:00Z", cnt⟩) ∧
    tblGet (set_sync_state dbEmpty "drive" (some "pt9") 5 "T9").syncState "drive" =
      some ⟨"drive", some "pt9", some "T9", 5⟩ := by
  have h1 : sync_gmail gmailZero 3 "2026-03-01T00:00:00Z" effC9 =
      some (c9eff, Res.ok 0) := by rfl
  exact ⟨h1,
    sync_state_write_semantics.2.2.1 gmailZero 3 "2026-03-01T00:00:00Z" effC9 c9eff 0 h1,
    sync_state_write_semantics.1 dbEmpty "drive" (some "pt9") 5 "T9"⟩

end Cache
